import Mathlib

/-!
Verification of the OID4VCI test-client scripts (`scripts/issue_brazilian_credentials.py`,
`scripts/govbr_token.py`, `scripts/govbr_token_local.py`) against their natural-language
specification.  Python strings are modelled as `List Char`, byte strings as `List Nat`
(each entry `< 256`), JSON values as the inductive `Json` below, and Python exceptions as
`Except PyErr`.  Every definition mirrors one function of the scripts; theorems at the end
settle the specification claims.
-/

set_option maxHeartbeats 1000000
set_option maxRecDepth 8192

/-- Python `str`, modelled as a list of characters. -/
abbrev PyStr := List Char

/-- Python `bytes`, modelled as a list of byte values (each `< 256`). -/
abbrev PyBytes := List Nat

/-- The kinds of Python exceptions the scripts can raise or catch. -/
inductive PyErrKind where
  | typeError
  | keyError
  | indexError
  | attributeError
  | valueError
  | jsonDecodeError
  | unicodeDecodeError
  | fileNotFoundError
  | calledProcessError
  | urlError
  deriving DecidableEq, Repr

/-- A Python exception: its class together with the text `str(e)` would produce. -/
structure PyErr where
  kind : PyErrKind
  msg : PyStr
  deriving DecidableEq, Repr

/-- JSON values as Python's `json` module produces them for this client: objects keep
their fields in textual order (later duplicates shadow earlier ones on lookup, as in a
Python `dict` built by the parser), and numerals are modelled as integers, which covers
every numeral these scripts produce or consume. -/
inductive Json where
  | null : Json
  | bool (b : Bool) : Json
  | num (n : Int) : Json
  | str (s : PyStr) : Json
  | arr (elems : List Json) : Json
  | obj (fields : List (PyStr × Json)) : Json

namespace Json

mutual

/-- Structural equality on JSON values. -/
def beq : Json → Json → Bool
  | .null, .null => true
  | .bool a, .bool b => a = b
  | .num a, .num b => a = b
  | .str a, .str b => a = b
  | .arr a, .arr b => beqList a b
  | .obj a, .obj b => beqFields a b
  | _, _ => false

/-- Structural equality on JSON arrays. -/
def beqList : List Json → List Json → Bool
  | [], [] => true
  | x :: xs, y :: ys => beq x y && beqList xs ys
  | _, _ => false

/-- Structural equality on JSON object field lists. -/
def beqFields : List (PyStr × Json) → List (PyStr × Json) → Bool
  | [], [] => true
  | (k, v) :: xs, (l, w) :: ys => k = l && beq v w && beqFields xs ys
  | _, _ => false

end

mutual

theorem beq_iff_eq : ∀ a b : Json, beq a b = true ↔ a = b
  | .null, .null => by simp [beq]
  | .bool _, .bool _ => by simp [beq]
  | .num _, .num _ => by simp [beq]
  | .str _, .str _ => by simp [beq]
  | .arr x, .arr y => by
      simp only [beq, arr.injEq]
      exact beqList_iff_eq x y
  | .obj x, .obj y => by
      simp only [beq, obj.injEq]
      exact beqFields_iff_eq x y
  | .null, .bool _ | .null, .num _ | .null, .str _ | .null, .arr _ | .null, .obj _
  | .bool _, .null | .bool _, .num _ | .bool _, .str _ | .bool _, .arr _ | .bool _, .obj _
  | .num _, .null | .num _, .bool _ | .num _, .str _ | .num _, .arr _ | .num _, .obj _
  | .str _, .null | .str _, .bool _ | .str _, .num _ | .str _, .arr _ | .str _, .obj _
  | .arr _, .null | .arr _, .bool _ | .arr _, .num _ | .arr _, .str _ | .arr _, .obj _
  | .obj _, .null | .obj _, .bool _ | .obj _, .num _ | .obj _, .str _ | .obj _, .arr _ => by
      simp [beq]

theorem beqList_iff_eq : ∀ a b : List Json, beqList a b = true ↔ a = b
  | [], [] => by simp [beqList]
  | x :: xs, y :: ys => by
      simp only [beqList, Bool.and_eq_true, List.cons.injEq]
      exact and_congr (beq_iff_eq x y) (beqList_iff_eq xs ys)
  | [], _ :: _ => by simp [beqList]
  | _ :: _, [] => by simp [beqList]

theorem beqFields_iff_eq : ∀ a b : List (PyStr × Json), beqFields a b = true ↔ a = b
  | [], [] => by simp [beqFields]
  | (k, v) :: xs, (l, w) :: ys => by
      simp only [beqFields, Bool.and_eq_true, List.cons.injEq, Prod.mk.injEq, decide_eq_true_eq]
      rw [beq_iff_eq v w, beqFields_iff_eq xs ys, and_assoc]
  | [], _ :: _ => by simp [beqFields]
  | _ :: _, [] => by simp [beqFields]

end

instance : DecidableEq Json := fun a b =>
  decidable_of_iff (beq a b = true) (beq_iff_eq a b)

end Json

instance {ε α : Type _} [DecidableEq ε] [DecidableEq α] : DecidableEq (Except ε α) :=
  fun a b =>
    match a, b with
    | .ok x, .ok y =>
        if h : x = y then .isTrue (by rw [h])
        else .isFalse (fun hc => h (Except.ok.inj hc))
    | .error x, .error y =>
        if h : x = y then .isTrue (by rw [h])
        else .isFalse (fun hc => h (Except.error.inj hc))
    | .ok _, .error _ => .isFalse (fun hc => Except.noConfusion hc)
    | .error _, .ok _ => .isFalse (fun hc => Except.noConfusion hc)

/-! ## Base64url (`base64.urlsafe_b64encode` / `base64.urlsafe_b64decode`)

Encoding follows RFC 4648 with the URL-safe alphabet; the scripts always strip the
padding (`.rstrip(b"=")`), so the encoder below produces the unpadded form directly.
The decoder mirrors CPython's lenient `binascii.a2b_base64`: characters outside the
alphabet are discarded, everything from the first genuine padding character on is
dropped, and a leftover group of one character is an error while leftover groups of
two or three characters decode when padding was present. -/

/-- The sextet-to-character table of the URL-safe base64 alphabet. -/
def b64Char (n : Nat) : Char :=
  if n < 26 then Char.ofNat ('A'.toNat + n)
  else if n < 52 then Char.ofNat ('a'.toNat + (n - 26))
  else if n < 62 then Char.ofNat ('0'.toNat + (n - 52))
  else if n = 62 then '-'
  else '_'

/-- Unpadded URL-safe base64 of a byte string, grouping three bytes into four sextets. -/
def b64urlNoPad : PyBytes → List Char
  | [] => []
  | [a] => [b64Char (a / 4), b64Char (a % 4 * 16)]
  | [a, b] => [b64Char (a / 4), b64Char (a % 4 * 16 + b / 16), b64Char (b % 16 * 4)]
  | a :: b :: c :: rest =>
      b64Char (a / 4) :: b64Char (a % 4 * 16 + b / 16) ::
      b64Char (b % 16 * 4 + c / 64) :: b64Char (c % 64) :: b64urlNoPad rest

/-- The sextet value of a base64 character, accepting both the standard and the
URL-safe alphabet as `base64.urlsafe_b64decode` effectively does. -/
def b64Value (c : Char) : Option Nat :=
  if 'A' ≤ c ∧ c ≤ 'Z' then some (c.toNat - 'A'.toNat)
  else if 'a' ≤ c ∧ c ≤ 'z' then some (c.toNat - 'a'.toNat + 26)
  else if '0' ≤ c ∧ c ≤ '9' then some (c.toNat - '0'.toNat + 52)
  else if c = '-' ∨ c = '+' then some 62
  else if c = '_' ∨ c = '/' then some 63
  else none

/-- Decode a list of sextet values four at a time into bytes; a trailing group of two
or three sextets yields one or two bytes (the caller has checked padding), a trailing
single sextet cannot occur for the lengths the caller admits. -/
def b64Quads : List Nat → PyBytes
  | a :: b :: c :: d :: rest =>
      (a * 4 + b / 16) :: (b % 16 * 16 + c / 4) :: (c % 4 * 64 + d) :: b64Quads rest
  | [a, b] => [a * 4 + b / 16]
  | [a, b, c] => [a * 4 + b / 16, b % 16 * 16 + c / 4]
  | _ => []

/-- Decode the characters before the first padding mark, given whether padding was
seen: a leftover of one sextet — or of two or three sextets with no padding present —
raises `binascii.Error`. -/
def b64decodeRaw (data : List Char) (hasPad : Bool) : Except PyErr PyBytes :=
  if (data.filterMap b64Value).length % 4 = 0 then .ok (b64Quads (data.filterMap b64Value))
  else if (data.filterMap b64Value).length % 4 = 1 then
    .error ⟨.valueError, "Invalid base64-encoded string".toList⟩
  else if hasPad then .ok (b64Quads (data.filterMap b64Value))
  else .error ⟨.valueError, "Invalid padding".toList⟩

/-- `base64.urlsafe_b64decode`: discard characters outside the alphabet, stop at the
first padding character, then decode leniently as CPython's `binascii.a2b_base64` does. -/
def b64decode (s : List Char) : Except PyErr PyBytes :=
  b64decodeRaw (s.takeWhile (· ≠ '=')) (s.any (· = '='))

example : b64urlNoPad [77, 97, 110] = "TWFu".toList := by decide
example : b64urlNoPad [77, 97] = "TWE".toList := by decide
example : b64urlNoPad [77] = "TQ".toList := by decide
example : b64decode "TWFu".toList = .ok [77, 97, 110] := by decide
example : b64decode "TWE=".toList = .ok [77, 97] := by decide
example : b64decode "TQ==".toList = .ok [77] := by decide
example : b64decode "TWFu====".toList = .ok [77, 97, 110] := by decide

theorem b64Value_b64Char : ∀ n < 64, b64Value (b64Char n) = some n := by decide

/-- Every character the encoder emits is a sextet image. -/
theorem mem_b64urlNoPad : ∀ bs : PyBytes, (∀ b ∈ bs, b < 256) →
    ∀ c ∈ b64urlNoPad bs, ∃ n, n < 64 ∧ c = b64Char n
  | [], _, c, hc => by simp [b64urlNoPad] at hc
  | [a], h, c, hc => by
      have ha : a < 256 := h a (by simp)
      simp only [b64urlNoPad, List.mem_cons, List.not_mem_nil, or_false] at hc
      rcases hc with rfl | rfl
      · exact ⟨a / 4, by omega, rfl⟩
      · exact ⟨a % 4 * 16, by omega, rfl⟩
  | [a, b], h, c, hc => by
      have ha : a < 256 := h a (by simp)
      have hb : b < 256 := h b (by simp)
      simp only [b64urlNoPad, List.mem_cons, List.not_mem_nil, or_false] at hc
      rcases hc with rfl | rfl | rfl
      · exact ⟨a / 4, by omega, rfl⟩
      · exact ⟨a % 4 * 16 + b / 16, by omega, rfl⟩
      · exact ⟨b % 16 * 4, by omega, rfl⟩
  | a :: b :: d :: rest, h, c, hc => by
      have ha : a < 256 := h a (by simp)
      have hb : b < 256 := h b (by simp)
      have hd : d < 256 := h d (by simp)
      simp only [b64urlNoPad, List.mem_cons] at hc
      rcases hc with rfl | rfl | rfl | rfl | hc
      · exact ⟨a / 4, by omega, rfl⟩
      · exact ⟨a % 4 * 16 + b / 16, by omega, rfl⟩
      · exact ⟨b % 16 * 4 + d / 64, by omega, rfl⟩
      · exact ⟨d % 64, by omega, rfl⟩
      · exact mem_b64urlNoPad rest (fun x hx => h x (by simp [hx])) c hc

/-- Filtering the encoder's output through the sextet table recovers the sextets. -/
theorem filterMap_b64urlNoPad : ∀ bs : PyBytes, (∀ b ∈ bs, b < 256) →
    b64Quads ((b64urlNoPad bs).filterMap b64Value) = bs
  | [], _ => rfl
  | [a], h => by
      have ha : a < 256 := h a (by simp)
      have h1 := b64Value_b64Char (a / 4) (by omega)
      have h2 := b64Value_b64Char (a % 4 * 16) (by omega)
      simp only [b64urlNoPad, List.filterMap_cons, h1, h2, List.filterMap_nil]
      show b64Quads [a / 4, a % 4 * 16] = [a]
      simp only [b64Quads, List.cons.injEq, and_true]
      omega
  | [a, b], h => by
      have ha : a < 256 := h a (by simp)
      have hb : b < 256 := h b (by simp)
      have h1 := b64Value_b64Char (a / 4) (by omega)
      have h2 := b64Value_b64Char (a % 4 * 16 + b / 16) (by omega)
      have h3 := b64Value_b64Char (b % 16 * 4) (by omega)
      simp only [b64urlNoPad, List.filterMap_cons, h1, h2, h3, List.filterMap_nil]
      show b64Quads [a / 4, a % 4 * 16 + b / 16, b % 16 * 4] = [a, b]
      simp only [b64Quads, List.cons.injEq, and_true]
      constructor <;> omega
  | a :: b :: d :: rest, h => by
      have ha : a < 256 := h a (by simp)
      have hb : b < 256 := h b (by simp)
      have hd : d < 256 := h d (by simp)
      have h1 := b64Value_b64Char (a / 4) (by omega)
      have h2 := b64Value_b64Char (a % 4 * 16 + b / 16) (by omega)
      have h3 := b64Value_b64Char (b % 16 * 4 + d / 64) (by omega)
      have h4 := b64Value_b64Char (d % 64) (by omega)
      have ih := filterMap_b64urlNoPad rest (fun x hx => h x (by simp [hx]))
      simp only [b64urlNoPad, List.filterMap_cons, h1, h2, h3, h4]
      show b64Quads (a / 4 :: (a % 4 * 16 + b / 16) :: (b % 16 * 4 + d / 64) :: d % 64 ::
        (b64urlNoPad rest).filterMap b64Value) = a :: b :: d :: rest
      simp only [b64Quads, ih, List.cons.injEq]
      refine ⟨by omega, by omega, by omega, trivial⟩

/-- Length of the unpadded encoding. -/
theorem length_b64urlNoPad : ∀ bs : PyBytes,
    (b64urlNoPad bs).length =
      bs.length / 3 * 4 + (if bs.length % 3 = 0 then 0 else bs.length % 3 + 1)
  | [] => rfl
  | [_] => by norm_num [b64urlNoPad]
  | [_, _] => by norm_num [b64urlNoPad]
  | a :: b :: d :: rest => by
      have ih := length_b64urlNoPad rest
      simp only [b64urlNoPad, List.length_cons, ih]
      have h3 : (rest.length + 1 + 1 + 1) % 3 = rest.length % 3 := by omega
      have h4 : (rest.length + 1 + 1 + 1) / 3 = rest.length / 3 + 1 := by omega
      rw [h3, h4]
      ring

/-- The encoder's characters all carry a sextet value, hence are never `'='` or `'.'`. -/
theorem b64urlNoPad_value_isSome (bs : PyBytes) (h : ∀ b ∈ bs, b < 256) :
    ∀ c ∈ b64urlNoPad bs, (b64Value c).isSome := by
  intro c hc
  obtain ⟨n, hn, rfl⟩ := mem_b64urlNoPad bs h c hc
  rw [b64Value_b64Char n hn]
  rfl

theorem b64urlNoPad_ne_eq (bs : PyBytes) (h : ∀ b ∈ bs, b < 256) :
    ∀ c ∈ b64urlNoPad bs, c ≠ '=' := by
  intro c hc heq
  have := b64urlNoPad_value_isSome bs h c hc
  rw [heq] at this
  simp [b64Value] at this

theorem b64urlNoPad_ne_dot (bs : PyBytes) (h : ∀ b ∈ bs, b < 256) :
    ∀ c ∈ b64urlNoPad bs, c ≠ '.' := by
  intro c hc heq
  have := b64urlNoPad_value_isSome bs h c hc
  rw [heq] at this
  simp [b64Value] at this

/-- `filterMap` keeps the length of a list on which the map is everywhere defined. -/
theorem length_filterMap_of_isSome {α β : Type _} (f : α → Option β) :
    ∀ l : List α, (∀ c ∈ l, (f c).isSome) → (l.filterMap f).length = l.length
  | [], _ => rfl
  | x :: xs, h => by
      obtain ⟨y, hy⟩ := Option.isSome_iff_exists.mp (h x (by simp))
      rw [List.filterMap_cons, hy, List.length_cons, List.length_cons,
        length_filterMap_of_isSome f xs (fun c hc => h c (by simp [hc]))]

/-- `takeWhile` over an append stops exactly at the first element of the tail when the
whole head satisfies the predicate and the tail's first element does not. -/
theorem takeWhile_append_stop {α : Type _} (p : α → Bool) :
    ∀ (l : List α) (h : α) (t : List α), (∀ x ∈ l, p x = true) → p h = false →
      (l ++ h :: t).takeWhile p = l
  | [], h, t, _, hh => by simp [List.takeWhile_cons, hh]
  | x :: xs, h, t, hl, hh => by
      have hx : p x = true := hl x (by simp)
      simp only [List.cons_append, List.takeWhile_cons, hx, if_true]
      rw [takeWhile_append_stop p xs h t (fun y hy => hl y (by simp [hy])) hh]

/-- With padding present, decoding the unpadded encoding recovers the bytes. -/
theorem b64decodeRaw_b64urlNoPad (bs : PyBytes) (h : ∀ b ∈ bs, b < 256) :
    b64decodeRaw (b64urlNoPad bs) true = .ok bs := by
  have hlen := length_b64urlNoPad bs
  have hlenS := length_filterMap_of_isSome b64Value (b64urlNoPad bs)
    (b64urlNoPad_value_isSome bs h)
  have hq := filterMap_b64urlNoPad bs h
  simp only [b64decodeRaw]
  rw [hq, hlenS, hlen]
  by_cases h3 : bs.length % 3 = 0
  · rw [if_pos h3, if_pos (by omega)]
  · rw [if_neg h3, if_neg (by omega), if_neg (by omega), if_pos trivial]

/-- Decoding the unpadded encoding followed by at least one padding character (as
`decode_jwt_payload` produces) recovers the bytes. -/
theorem b64decode_b64urlNoPad_pad (bs : PyBytes) (h : ∀ b ∈ bs, b < 256) (k : Nat)
    (hk : 0 < k) :
    b64decode (b64urlNoPad bs ++ List.replicate k '=') = .ok bs := by
  have hne := b64urlNoPad_ne_eq bs h
  have hall : ∀ c ∈ b64urlNoPad bs, (fun c => decide (c ≠ '=')) c = true := by
    intro c hc
    simp [hne c hc]
  have htake : (b64urlNoPad bs ++ List.replicate k '=').takeWhile (· ≠ '=') =
      b64urlNoPad bs := by
    cases k with
    | zero => omega
    | succ m =>
        rw [List.replicate_succ]
        exact takeWhile_append_stop _ _ _ _ hall (by simp)
  have hany : (b64urlNoPad bs ++ List.replicate k '=').any (· = '=') = true := by
    rw [List.any_append]
    cases k with
    | zero => omega
    | succ m => simp [List.replicate_succ]
  rw [b64decode, htake, hany]
  exact b64decodeRaw_b64urlNoPad bs h


/-! ## JSON text (`json.dumps` with its default `ensure_ascii=True`, and `json.loads`)

`json.dumps` renders with the default separators `", "` and `": "`, escaping `"`,
`\`, control characters and everything outside printable ASCII (`\uXXXX`, with a
surrogate pair for astral characters).  `json.loads` is a recursive-descent reader
of the same grammar; numerals are read as integers, which covers every numeral
these scripts exchange.  The reader carries explicit fuel (one unit per value,
field or string character, always at least the remaining input length plus one),
so that it is structurally recursive and computable by the kernel. -/

/-- The character of a decimal digit. -/
def digitChar (d : Nat) : Char := Char.ofNat (48 + d)

/-- The character of a hexadecimal digit, lowercase as `json.dumps` emits it. -/
def hexChar (d : Nat) : Char := if d < 10 then Char.ofNat (48 + d) else Char.ofNat (87 + d)

/-- A `\uXXXX` escape. -/
def u16hex (n : Nat) : List Char :=
  ['\\', 'u', hexChar (n / 4096 % 16), hexChar (n / 256 % 16), hexChar (n / 16 % 16),
    hexChar (n % 16)]

/-- `json.dumps`' ASCII escaping of one character. -/
def escapeChar (c : Char) : List Char :=
  if c = '\\' then ['\\', '\\']
  else if c = '"' then ['\\', '"']
  else if c.toNat = 8 then ['\\', 'b']
  else if c.toNat = 12 then ['\\', 'f']
  else if c.toNat = 10 then ['\\', 'n']
  else if c.toNat = 13 then ['\\', 'r']
  else if c.toNat = 9 then ['\\', 't']
  else if 32 ≤ c.toNat ∧ c.toNat ≤ 126 then [c]
  else if c.toNat < 65536 then u16hex c.toNat
  else u16hex (55296 + (c.toNat - 65536) / 1024) ++ u16hex (56320 + (c.toNat - 65536) % 1024)

/-- Escape a whole string. -/
def escapeStr (s : PyStr) : List Char := s.flatMap escapeChar

/-- A JSON string literal. -/
def renderString (s : PyStr) : List Char := '"' :: escapeStr s ++ ['"']

/-- Decimal digits of a natural number, most significant first; the fuel is one
more than the number and always suffices. -/
def natDigitsAux : Nat → Nat → List Char → List Char
  | 0, _, acc => acc
  | fuel + 1, n, acc =>
      if n < 10 then digitChar n :: acc
      else natDigitsAux fuel (n / 10) (digitChar (n % 10) :: acc)

/-- Decimal digits of a natural number. -/
def natDigits (n : Nat) : List Char := natDigitsAux (n + 1) n []

/-- Python's decimal rendering of an integer. -/
def intRepr : Int → List Char
  | .ofNat n => natDigits n
  | .negSucc n => '-' :: natDigits (n + 1)

mutual

/-- `json.dumps` with its defaults. -/
def dumps : Json → List Char
  | .null => "null".toList
  | .bool true => "true".toList
  | .bool false => "false".toList
  | .num n => intRepr n
  | .str s => renderString s
  | .arr es => '[' :: (dumpsElems es ++ [']'])
  | .obj fs => '{' :: (dumpsFields fs ++ ['}'])

/-- Array elements joined by `", "`. -/
def dumpsElems : List Json → List Char
  | [] => []
  | [v] => dumps v
  | v :: rest => dumps v ++ ',' :: ' ' :: dumpsElems rest

/-- Object fields joined by `", "`, each key and value joined by `": "`. -/
def dumpsFields : List (PyStr × Json) → List Char
  | [] => []
  | [(k, v)] => renderString k ++ ':' :: ' ' :: dumps v
  | (k, v) :: rest => renderString k ++ ':' :: ' ' :: dumps v ++ ',' :: ' ' :: dumpsFields rest

end

/-- JSON whitespace. -/
def isWs (c : Char) : Bool := c = ' ' ∨ c = '\t' ∨ c = '\n' ∨ c = '\r'

/-- Skip JSON whitespace. -/
def skipWs (l : List Char) : List Char := l.dropWhile isWs

/-- Decimal digit test. -/
def isDigitCh (c : Char) : Bool := 48 ≤ c.toNat ∧ c.toNat ≤ 57

/-- Value of a decimal digit character. -/
def digitVal (c : Char) : Nat := c.toNat - 48

/-- Numeric value of a digit run. -/
def foldDigits (l : List Char) : Nat := l.foldl (fun a c => a * 10 + digitVal c) 0

/-- Value of a hexadecimal digit character, either case. -/
def hexVal (c : Char) : Option Nat :=
  if isDigitCh c then some (digitVal c)
  else if 'a' ≤ c ∧ c ≤ 'f' then some (c.toNat - 87)
  else if 'A' ≤ c ∧ c ≤ 'F' then some (c.toNat - 55)
  else none

/-- The error `json.loads` raises on malformed input. -/
def jsonErr : PyErr := ⟨.jsonDecodeError, "Expecting value".toList⟩

/-- Read four hexadecimal digits. -/
def parseHex4 : List Char → Except PyErr (Nat × List Char)
  | a :: b :: c :: d :: rest =>
      match hexVal a, hexVal b, hexVal c, hexVal d with
      | some x, some y, some z, some w => .ok (x * 4096 + y * 256 + z * 16 + w, rest)
      | _, _, _, _ => .error jsonErr
  | _ => .error jsonErr

/-- A character from its scalar value, guarded by validity. -/
def mkChar (n : Nat) : Option Char :=
  if n.isValidChar then some (Char.ofNat n) else none

/-- The named single-character escapes of JSON. -/
def escSimple (c : Char) : Option Char :=
  if c = '"' then some '"'
  else if c = '\\' then some '\\'
  else if c = '/' then some '/'
  else if c = 'b' then some (Char.ofNat 8)
  else if c = 'f' then some (Char.ofNat 12)
  else if c = 'n' then some (Char.ofNat 10)
  else if c = 'r' then some (Char.ofNat 13)
  else if c = 't' then some (Char.ofNat 9)
  else none

/-- After a high surrogate and the expected `\u`, read and join the low surrogate. -/
def parseUEscPair2 (n : Nat) (r4 : List Char) : Except PyErr (Char × List Char) :=
  match parseHex4 r4 with
  | .error e => .error e
  | .ok (m, r5) =>
      if 56320 ≤ m ∧ m < 57344 then
        match mkChar (65536 + (n - 55296) * 1024 + (m - 56320)) with
        | some ch => .ok (ch, r5)
        | none => .error jsonErr
      else .error jsonErr

/-- After a high surrogate, require a following `\u` escape. -/
def parseUEscPair (n : Nat) (r3 : List Char) : Except PyErr (Char × List Char) :=
  match r3 with
  | c1 :: c2 :: r4 =>
      if c1 = '\\' ∧ c2 = 'u' then parseUEscPair2 n r4 else .error jsonErr
  | _ => .error jsonErr

/-- Resolve the value of one `\u` escape: a high surrogate starts a pair, anything
else is a scalar value. -/
def parseUEscCont (n : Nat) (r3 : List Char) : Except PyErr (Char × List Char) :=
  if 55296 ≤ n ∧ n < 56320 then parseUEscPair n r3
  else
    match mkChar n with
    | some ch => .ok (ch, r3)
    | none => .error jsonErr

/-- Resolve one `\u` escape starting at its hex digits, joining a surrogate pair. -/
def parseUEsc (r2 : List Char) : Except PyErr (Char × List Char) :=
  match parseHex4 r2 with
  | .error e => .error e
  | .ok (n, r3) => parseUEscCont n r3

/-- Resolve the escape after a backslash: either a `\u` escape or a named one. -/
def parseEsc : List Char → Except PyErr (Char × List Char)
  | [] => .error jsonErr
  | e :: r2 =>
      if e = 'u' then parseUEsc r2
      else
        match escSimple e with
        | some ch => .ok (ch, r2)
        | none => .error jsonErr

/-- Read a string body after the opening quote, handling escapes (including
surrogate pairs) and rejecting raw control characters as `json.loads` does in
its default strict mode. -/
def parseStrBody : Nat → List Char → Except PyErr (PyStr × List Char)
  | 0, _ => .error jsonErr
  | fuel + 1, l =>
      match l with
      | [] => .error jsonErr
      | c :: rest =>
          if c = '"' then .ok ([], rest)
          else if c = '\\' then
            match parseEsc rest with
            | .error err => .error err
            | .ok (ch, r3) => (fun p => (ch :: p.1, p.2)) <$> parseStrBody fuel r3
          else if c.toNat < 32 then .error jsonErr
          else (fun p => (c :: p.1, p.2)) <$> parseStrBody fuel rest

mutual

/-- Read one JSON value. -/
def parseVal : Nat → List Char → Except PyErr (Json × List Char)
  | 0, _ => .error jsonErr
  | fuel + 1, l =>
      if skipWs l = [] then .error jsonErr
      else if (skipWs l).headI = '{' then
        (fun p => (Json.obj p.1, p.2)) <$> parseObjFields fuel true (skipWs l).tail
      else if (skipWs l).headI = '[' then
        (fun p => (Json.arr p.1, p.2)) <$> parseArrElems fuel true (skipWs l).tail
      else if (skipWs l).headI = '"' then
        (fun p => (Json.str p.1, p.2)) <$>
          parseStrBody ((skipWs l).tail.length + 1) (skipWs l).tail
      else if (skipWs l).headI = 't' then
        if (skipWs l).tail.take 3 = "rue".toList then .ok (.bool true, (skipWs l).tail.drop 3)
        else .error jsonErr
      else if (skipWs l).headI = 'f' then
        if (skipWs l).tail.take 4 = "alse".toList then
          .ok (.bool false, (skipWs l).tail.drop 4)
        else .error jsonErr
      else if (skipWs l).headI = 'n' then
        if (skipWs l).tail.take 3 = "ull".toList then .ok (.null, (skipWs l).tail.drop 3)
        else .error jsonErr
      else if (skipWs l).headI = '-' then
        if (skipWs l).tail.takeWhile isDigitCh = [] then .error jsonErr
        else .ok (.num (-(foldDigits ((skipWs l).tail.takeWhile isDigitCh) : Int)),
          (skipWs l).tail.dropWhile isDigitCh)
      else if isDigitCh (skipWs l).headI then
        .ok (.num (foldDigits ((skipWs l).takeWhile isDigitCh)),
          (skipWs l).dropWhile isDigitCh)
      else .error jsonErr

/-- Read the fields of an object after `{` (or after a `,`; only the run directly
after `{` may be empty). -/
def parseObjFields : Nat → Bool → List Char → Except PyErr (List (PyStr × Json) × List Char)
  | 0, _, _ => .error jsonErr
  | fuel + 1, first, l =>
      if skipWs l = [] then .error jsonErr
      else if first ∧ (skipWs l).headI = '}' then .ok ([], (skipWs l).tail)
      else if (skipWs l).headI = '"' then
        parseStrBody ((skipWs l).tail.length + 1) (skipWs l).tail >>= fun kr =>
          if skipWs kr.2 = [] then .error jsonErr
          else if (skipWs kr.2).headI = ':' then
            parseVal fuel (skipWs kr.2).tail >>= fun vr =>
              if skipWs vr.2 = [] then .error jsonErr
              else if (skipWs vr.2).headI = ',' then
                (fun p => ((kr.1, vr.1) :: p.1, p.2)) <$>
                  parseObjFields fuel false (skipWs vr.2).tail
              else if (skipWs vr.2).headI = '}' then
                .ok ([(kr.1, vr.1)], (skipWs vr.2).tail)
              else .error jsonErr
          else .error jsonErr
      else .error jsonErr

/-- Read the elements of an array after `[` (or after a `,`). -/
def parseArrElems : Nat → Bool → List Char → Except PyErr (List Json × List Char)
  | 0, _, _ => .error jsonErr
  | fuel + 1, first, l =>
      if first ∧ skipWs l ≠ [] ∧ (skipWs l).headI = ']' then .ok ([], (skipWs l).tail)
      else
        parseVal fuel l >>= fun vr =>
          if skipWs vr.2 = [] then .error jsonErr
          else if (skipWs vr.2).headI = ',' then
            (fun p => (vr.1 :: p.1, p.2)) <$> parseArrElems fuel false (skipWs vr.2).tail
          else if (skipWs vr.2).headI = ']' then .ok ([vr.1], (skipWs vr.2).tail)
          else .error jsonErr

end

/-- `json.loads` on text: read one value, then allow only whitespace to follow. -/
def jsonLoads (s : PyStr) : Except PyErr Json :=
  match parseVal (s.length + 1) s with
  | .ok (v, rest) =>
      if skipWs rest = [] then .ok v else .error ⟨.jsonDecodeError, "Extra data".toList⟩
  | .error e => .error e

/-- UTF-8 bytes of one scalar value. -/
def utf8EncodeChar (n : Nat) : PyBytes :=
  if n < 128 then [n]
  else if n < 2048 then [192 + n / 64, 128 + n % 64]
  else if n < 65536 then [224 + n / 4096, 128 + n / 64 % 64, 128 + n % 64]
  else [240 + n / 262144, 128 + n / 4096 % 64, 128 + n / 64 % 64, 128 + n % 64]

/-- Python `str.encode()` (UTF-8). -/
def utf8Encode (s : PyStr) : PyBytes := s.flatMap (fun c => utf8EncodeChar c.toNat)

/-- Continuation-byte test for the second byte of a two-byte sequence. -/
def utf8Cont2 (rest : PyBytes) : Bool :=
  rest ≠ [] ∧ 128 ≤ rest.headI ∧ rest.headI ≤ 191

/-- Validity of the continuation bytes of a three-byte sequence (with the
overlong and surrogate exclusions of CPython's strict decoder). -/
def utf8Cont3 (b : Nat) (rest : PyBytes) : Bool :=
  2 ≤ rest.length ∧ (128 ≤ rest.headI ∧ rest.headI ≤ 191) ∧
    (128 ≤ rest.tail.headI ∧ rest.tail.headI ≤ 191) ∧
    (b = 224 → 160 ≤ rest.headI) ∧ (b = 237 → rest.headI ≤ 159)

/-- Validity of the continuation bytes of a four-byte sequence. -/
def utf8Cont4 (b : Nat) (rest : PyBytes) : Bool :=
  3 ≤ rest.length ∧ (128 ≤ rest.headI ∧ rest.headI ≤ 191) ∧
    (128 ≤ rest.tail.headI ∧ rest.tail.headI ≤ 191) ∧
    (128 ≤ rest.tail.tail.headI ∧ rest.tail.tail.headI ≤ 191) ∧
    (b = 240 → 144 ≤ rest.headI) ∧ (b = 244 → rest.headI ≤ 143)

/-- Scalar value of a two-byte sequence. -/
def utf8Val2 (b : Nat) (rest : PyBytes) : Nat := (b - 192) * 64 + (rest.headI - 128)

/-- Scalar value of a three-byte sequence. -/
def utf8Val3 (b : Nat) (rest : PyBytes) : Nat :=
  (b - 224) * 4096 + (rest.headI - 128) * 64 + (rest.tail.headI - 128)

/-- Scalar value of a four-byte sequence. -/
def utf8Val4 (b : Nat) (rest : PyBytes) : Nat :=
  (b - 240) * 262144 + (rest.headI - 128) * 4096 + (rest.tail.headI - 128) * 64 +
    (rest.tail.tail.headI - 128)

/-- The decode error CPython raises. -/
def udErr : PyErr := ⟨.unicodeDecodeError, "invalid".toList⟩

/-- Python `bytes.decode()` (strict UTF-8): rejects truncated sequences, overlong
forms, surrogates and values beyond `0x10FFFF`. -/
def utf8Decode : Nat → PyBytes → Except PyErr PyStr
  | 0, _ => .error udErr
  | _ + 1, [] => .ok []
  | fuel + 1, b :: rest =>
      if b < 128 then
        match mkChar b with
        | some c => (fun s => c :: s) <$> utf8Decode fuel rest
        | none => .error udErr
      else if 194 ≤ b ∧ b ≤ 223 then
        if utf8Cont2 rest then
          match mkChar (utf8Val2 b rest) with
          | some c => (fun s => c :: s) <$> utf8Decode fuel rest.tail
          | none => .error udErr
        else .error udErr
      else if 224 ≤ b ∧ b ≤ 239 then
        if utf8Cont3 b rest then
          match mkChar (utf8Val3 b rest) with
          | some c => (fun s => c :: s) <$> utf8Decode fuel rest.tail.tail
          | none => .error udErr
        else .error udErr
      else if 240 ≤ b ∧ b ≤ 244 then
        if utf8Cont4 b rest then
          match mkChar (utf8Val4 b rest) with
          | some c => (fun s => c :: s) <$> utf8Decode fuel rest.tail.tail.tail
          | none => .error udErr
        else .error udErr
      else .error udErr

/-- `json.loads` on bytes: decode UTF-8, then read the text. -/
def jsonLoadsBytes (bs : PyBytes) : Except PyErr Json :=
  utf8Decode (bs.length + 1) bs >>= jsonLoads

example : jsonLoads "\x7b\"a\": 1, \"b\": [true, null]\x7d".toList =
    .ok (.obj [("a".toList, .num 1), ("b".toList, .arr [.bool true, .null])]) := by decide
example : dumps (.obj [("a".toList, .num 1), ("b".toList, .str "x".toList)]) =
    "\x7b\"a\": 1, \"b\": \"x\"\x7d".toList := by decide
example : jsonLoads "5".toList = .ok (.num 5) := by decide
example : jsonLoads "[\"c_nonce\"]".toList = .ok (.arr [.str "c_nonce".toList]) := by decide

/-! ## Decimal digits: correctness of the fuelled renderer and of digit reading -/

/-- `Char.toNat` after `Char.ofNat` for a valid scalar value. -/
theorem toNat_ofNat_valid {m : Nat} (h : m.isValidChar) : (Char.ofNat m).toNat = m := by
  rw [Char.ofNat, dif_pos h]
  rfl

/-- Scalar values below the surrogate block are valid. -/
theorem isValidChar_of_lt {m : Nat} (h : m < 55296) : m.isValidChar := Or.inl h

/-- The scalar value of any character is valid. -/
theorem char_toNat_valid (c : Char) : c.toNat.isValidChar := c.valid

/-- Spec-level decimal digits of a natural number, by division; never evaluated,
only reasoned about. -/
def toDigsWF (n : Nat) : List Char :=
  if h : n < 10 then [digitChar n]
  else toDigsWF (n / 10) ++ [digitChar (n % 10)]
termination_by n
decreasing_by exact Nat.div_lt_self (by omega) (by omega)

theorem natDigitsAux_eq : ∀ fuel n acc, n < 10 ^ (fuel + 1) →
    natDigitsAux (fuel + 1) n acc = toDigsWF n ++ acc
  | 0, n, acc, h => by
      have hn : n < 10 := by simpa using h
      rw [natDigitsAux, if_pos hn, toDigsWF, dif_pos hn]
      simp
  | fuel + 1, n, acc, h => by
      by_cases hn : n < 10
      · rw [natDigitsAux, if_pos hn, toDigsWF, dif_pos hn]
        simp
      · rw [natDigitsAux, if_neg hn, toDigsWF, dif_neg hn]
        have hd : n / 10 < 10 ^ (fuel + 1) := by
          rw [pow_succ] at h
          exact Nat.div_lt_of_lt_mul (by omega)
        rw [natDigitsAux_eq fuel (n / 10) (digitChar (n % 10) :: acc) hd]
        simp

theorem natDigits_eq (n : Nat) : natDigits n = toDigsWF n := by
  have h1 : n < 10 ^ n := Nat.lt_pow_self (by norm_num) n
  have h2 : (10 : Nat) ^ n ≤ 10 ^ (n + 1) := Nat.pow_le_pow_right (by norm_num) (Nat.le_succ n)
  rw [natDigits, natDigitsAux_eq n n [] (lt_of_lt_of_le h1 h2)]
  simp

theorem digitChar_toNat {d : Nat} (h : d < 10) : (digitChar d).toNat = 48 + d :=
  toNat_ofNat_valid (isValidChar_of_lt (by omega))

theorem isDigitCh_digitChar {d : Nat} (h : d < 10) : isDigitCh (digitChar d) = true := by
  simp only [isDigitCh, digitChar_toNat h, decide_eq_true_eq]
  omega

theorem digitVal_digitChar {d : Nat} (h : d < 10) : digitVal (digitChar d) = d := by
  simp [digitVal, digitChar_toNat h]

theorem toDigsWF_digits (n : Nat) : ∀ c ∈ toDigsWF n, isDigitCh c = true := by
  induction n using Nat.strong_induction_on with
  | _ n ih =>
      by_cases hn : n < 10
      · rw [toDigsWF, dif_pos hn]
        intro c hc
        simp only [List.mem_singleton] at hc
        exact hc ▸ isDigitCh_digitChar hn
      · rw [toDigsWF, dif_neg hn]
        intro c hc
        rcases List.mem_append.mp hc with hc | hc
        · exact ih (n / 10) (Nat.div_lt_self (by omega) (by omega)) c hc
        · simp only [List.mem_singleton] at hc
          exact hc ▸ isDigitCh_digitChar (Nat.mod_lt n (by omega))

theorem toDigsWF_ne_nil (n : Nat) : toDigsWF n ≠ [] := by
  by_cases hn : n < 10
  · rw [toDigsWF, dif_pos hn]
    simp
  · rw [toDigsWF, dif_neg hn]
    simp

theorem foldDigits_toDigsWF (n : Nat) : foldDigits (toDigsWF n) = n := by
  induction n using Nat.strong_induction_on with
  | _ n ih =>
      by_cases hn : n < 10
      · rw [toDigsWF, dif_pos hn]
        simp [foldDigits, digitVal_digitChar hn]
      · rw [toDigsWF, dif_neg hn]
        have := ih (n / 10) (Nat.div_lt_self (by omega) (by omega))
        simp only [foldDigits, List.foldl_append, List.foldl_cons, List.foldl_nil] at this ⊢
        rw [this, digitVal_digitChar (Nat.mod_lt n (by omega))]
        omega

/-- `dropWhile` over an append lands on the first element of the tail when the whole
head satisfies the predicate and the tail's first element does not. -/
theorem dropWhile_append_stop {α : Type _} (p : α → Bool) :
    ∀ (l : List α) (h : α) (t : List α), (∀ x ∈ l, p x = true) → p h = false →
      (l ++ h :: t).dropWhile p = h :: t
  | [], h, t, _, hh => by simp [List.dropWhile_cons, hh]
  | x :: xs, h, t, hl, hh => by
      have hx : p x = true := hl x (by simp)
      simp only [List.cons_append, List.dropWhile_cons, hx, if_true]
      exact dropWhile_append_stop p xs h t (fun y hy => hl y (by simp [hy])) hh

/-- Reading the digit run of `toDigsWF n ++ rest` when `rest` does not begin with
a digit: the run is exactly the digits. -/
theorem takeWhile_toDigsWF (n : Nat) (rest : List Char)
    (hrest : rest = [] ∨ ∃ h t, rest = h :: t ∧ isDigitCh h = false) :
    (toDigsWF n ++ rest).takeWhile isDigitCh = toDigsWF n ∧
      (toDigsWF n ++ rest).dropWhile isDigitCh = rest := by
  rcases hrest with rfl | ⟨h, t, rfl, hh⟩
  · rw [List.append_nil]
    constructor
    · exact List.takeWhile_eq_self_iff.mpr (toDigsWF_digits n)
    · exact List.dropWhile_eq_nil_iff.mpr (toDigsWF_digits n)
  · exact ⟨takeWhile_append_stop isDigitCh (toDigsWF n) h t (toDigsWF_digits n) hh,
      dropWhile_append_stop isDigitCh (toDigsWF n) h t (toDigsWF_digits n) hh⟩

/-! ## String escaping: reading back what `json.dumps` wrote -/

theorem hexVal_hexChar : ∀ d < 16, hexVal (hexChar d) = some d := by decide

/-- The four hex digits of a `\u` escape. -/
def hexDigits4 (n : Nat) : List Char :=
  [hexChar (n / 4096 % 16), hexChar (n / 256 % 16), hexChar (n / 16 % 16), hexChar (n % 16)]

theorem u16hex_eq (n : Nat) : u16hex n = '\\' :: 'u' :: hexDigits4 n := rfl

theorem parseHex4_hexDigits4 (n : Nat) (h : n < 65536) (rest : List Char) :
    parseHex4 (hexDigits4 n ++ rest) = .ok (n, rest) := by
  have h1 := hexVal_hexChar (n / 4096 % 16) (Nat.mod_lt _ (by omega))
  have h2 := hexVal_hexChar (n / 256 % 16) (Nat.mod_lt _ (by omega))
  have h3 := hexVal_hexChar (n / 16 % 16) (Nat.mod_lt _ (by omega))
  have h4 := hexVal_hexChar (n % 16) (Nat.mod_lt _ (by omega))
  have harith : n / 4096 % 16 * 4096 + n / 256 % 16 * 256 + n / 16 % 16 * 16 + n % 16 = n := by
    omega
  show parseHex4 (hexChar (n / 4096 % 16) :: hexChar (n / 256 % 16) :: hexChar (n / 16 % 16) ::
    hexChar (n % 16) :: rest) = .ok (n, rest)
  rw [parseHex4]
  simp only [h1, h2, h3, h4, harith]

/-- Reading a named escape. -/
theorem parseStrBody_escNamed (c e : Char) (fuel : Nat) (l : List Char)
    (hne : ¬e = 'u') (h : escSimple e = some c) :
    parseStrBody (fuel + 1) ('\\' :: e :: l) =
      (fun p => (c :: p.1, p.2)) <$> parseStrBody fuel l := by
  rw [parseStrBody]
  simp +decide [parseEsc, if_neg hne, h]

/-- Reading a `\u` escape whose resolution is known. -/
theorem parseStrBody_escU (c : Char) (fuel : Nat) (l r : List Char)
    (hpu : parseUEsc r = .ok (c, l)) :
    parseStrBody (fuel + 1) ('\\' :: 'u' :: r) =
      (fun p => (c :: p.1, p.2)) <$> parseStrBody fuel l := by
  rw [parseStrBody]
  simp +decide [parseEsc, hpu]

/-- Reading a literal (printable, unescaped) character. -/
theorem parseStrBody_lit (c : Char) (fuel : Nat) (l : List Char)
    (hq : ¬c = '"') (hbs : ¬c = '\\') (hge : 32 ≤ c.toNat) :
    parseStrBody (fuel + 1) (c :: l) =
      (fun p => (c :: p.1, p.2)) <$> parseStrBody fuel l := by
  rw [parseStrBody, if_neg hq, if_neg hbs, if_neg (by omega)]

/-- Resolution of a basic-plane `\u` escape. -/
theorem parseUEsc_bmp (c : Char) (l : List Char) (hbmp : c.toNat < 65536) :
    parseUEsc (hexDigits4 c.toNat ++ l) = .ok (c, l) := by
  have hvalid := char_toNat_valid c
  have hns : ¬(55296 ≤ c.toNat ∧ c.toNat < 56320) := by
    rcases hvalid with h | ⟨h1, h2⟩ <;> omega
  rw [parseUEsc, parseHex4_hexDigits4 c.toNat hbmp l]
  show parseUEscCont c.toNat l = .ok (c, l)
  rw [parseUEscCont, if_neg hns, mkChar, if_pos hvalid, Char.ofNat_toNat]

/-- Resolution of a surrogate-pair `\u` escape. -/
theorem parseUEsc_astral (c : Char) (l : List Char) (hbmp : ¬c.toNat < 65536) :
    parseUEsc (hexDigits4 (55296 + (c.toNat - 65536) / 1024) ++
        ('\\' :: 'u' :: (hexDigits4 (56320 + (c.toNat - 65536) % 1024) ++ l))) =
      .ok (c, l) := by
  have hvalid := char_toNat_valid c
  have hmax : c.toNat < 1114112 := by
    rcases hvalid with h | ⟨h1, h2⟩ <;> omega
  have hdiv : (c.toNat - 65536) / 1024 < 1024 := by omega
  have hmod := Nat.mod_lt (c.toNat - 65536) (show 0 < 1024 by omega)
  have hhi : 55296 + (c.toNat - 65536) / 1024 < 65536 := by omega
  have hlo : 56320 + (c.toNat - 65536) % 1024 < 65536 := by omega
  have harith : 65536 + (55296 + (c.toNat - 65536) / 1024 - 55296) * 1024 +
      (56320 + (c.toNat - 65536) % 1024 - 56320) = c.toNat := by
    have := Nat.div_add_mod (c.toNat - 65536) 1024
    omega
  rw [parseUEsc, parseHex4_hexDigits4 _ hhi]
  show parseUEscCont (55296 + (c.toNat - 65536) / 1024)
    ('\\' :: 'u' :: (hexDigits4 (56320 + (c.toNat - 65536) % 1024) ++ l)) = .ok (c, l)
  rw [parseUEscCont, if_pos (by omega), parseUEscPair, if_pos (by decide),
    parseUEscPair2, parseHex4_hexDigits4 _ hlo]
  show (if 56320 ≤ 56320 + (c.toNat - 65536) % 1024 ∧
      56320 + (c.toNat - 65536) % 1024 < 57344 then _ else Except.error jsonErr) = _
  rw [if_pos (by omega), harith, mkChar, if_pos hvalid, Char.ofNat_toNat]

/-- Reading one escaped character: the escape of `c` followed by anything reads back
as `c` in front of the rest of the string body. -/
theorem parseStrBody_escapeChar (c : Char) (fuel : Nat) (l : List Char) :
    parseStrBody (fuel + 1) (escapeChar c ++ l) =
      (fun p => (c :: p.1, p.2)) <$> parseStrBody fuel l := by
  have hofs : ∀ m : Nat, c.toNat = m → Char.ofNat m = c := by
    intro m hm
    rw [← hm, Char.ofNat_toNat]
  by_cases hbs : c = '\\'
  · subst hbs
    exact parseStrBody_escNamed _ _ _ _ (by decide) (by decide)
  by_cases hq : c = '"'
  · subst hq
    exact parseStrBody_escNamed _ _ _ _ (by decide) (by decide)
  by_cases h8 : c.toNat = 8
  · rw [escapeChar, if_neg hbs, if_neg hq, if_pos h8]
    refine parseStrBody_escNamed _ _ _ _ (by decide) ?_
    rw [show escSimple 'b' = some (Char.ofNat 8) from by decide, hofs 8 h8]
  by_cases h12 : c.toNat = 12
  · rw [escapeChar, if_neg hbs, if_neg hq, if_neg h8, if_pos h12]
    refine parseStrBody_escNamed _ _ _ _ (by decide) ?_
    rw [show escSimple 'f' = some (Char.ofNat 12) from by decide, hofs 12 h12]
  by_cases h10 : c.toNat = 10
  · rw [escapeChar, if_neg hbs, if_neg hq, if_neg h8, if_neg h12, if_pos h10]
    refine parseStrBody_escNamed _ _ _ _ (by decide) ?_
    rw [show escSimple 'n' = some (Char.ofNat 10) from by decide, hofs 10 h10]
  by_cases h13 : c.toNat = 13
  · rw [escapeChar, if_neg hbs, if_neg hq, if_neg h8, if_neg h12, if_neg h10, if_pos h13]
    refine parseStrBody_escNamed _ _ _ _ (by decide) ?_
    rw [show escSimple 'r' = some (Char.ofNat 13) from by decide, hofs 13 h13]
  by_cases h9 : c.toNat = 9
  · rw [escapeChar, if_neg hbs, if_neg hq, if_neg h8, if_neg h12, if_neg h10, if_neg h13,
      if_pos h9]
    refine parseStrBody_escNamed _ _ _ _ (by decide) ?_
    rw [show escSimple 't' = some (Char.ofNat 9) from by decide, hofs 9 h9]
  by_cases hlit : 32 ≤ c.toNat ∧ c.toNat ≤ 126
  · rw [escapeChar, if_neg hbs, if_neg hq, if_neg h8, if_neg h12, if_neg h10, if_neg h13,
      if_neg h9, if_pos hlit]
    exact parseStrBody_lit c fuel l hq hbs hlit.1
  by_cases hbmp : c.toNat < 65536
  · rw [escapeChar, if_neg hbs, if_neg hq, if_neg h8, if_neg h12, if_neg h10, if_neg h13,
      if_neg h9, if_neg hlit, if_pos hbmp, u16hex_eq]
    exact parseStrBody_escU c fuel l _ (parseUEsc_bmp c l hbmp)
  · rw [escapeChar, if_neg hbs, if_neg hq, if_neg h8, if_neg h12, if_neg h10, if_neg h13,
      if_neg h9, if_neg hlit, if_neg hbmp, u16hex_eq, u16hex_eq]
    have := parseStrBody_escU c fuel l _ (parseUEsc_astral c l hbmp)
    simpa using this

/-! ## Reading back rendered values -/

theorem except_bind_ok {ε α β : Type _} (a : α) (f : α → Except ε β) :
    (Except.ok a >>= f : Except ε β) = f a := rfl

theorem except_map_ok {ε α β : Type _} (g : α → β) (a : α) :
    (g <$> (Except.ok a : Except ε α)) = .ok (g a) := rfl

theorem escapeChar_length_pos (c : Char) : 1 ≤ (escapeChar c).length := by
  unfold escapeChar
  split_ifs <;> simp [u16hex]

theorem escapeStr_length_ge : ∀ s : PyStr, s.length ≤ (escapeStr s).length
  | [] => le_refl _
  | c :: cs => by
      have h1 := escapeChar_length_pos c
      have h2 := escapeStr_length_ge cs
      simp only [escapeStr, List.flatMap_cons, List.length_append, List.length_cons]
      have : cs.flatMap escapeChar = escapeStr cs := rfl
      rw [this]
      omega

/-- Reading back a whole escaped string body up to its closing quote. -/
theorem parseStrBody_escapeStr : ∀ (s : PyStr) (rest : List Char) (fuel : Nat),
    s.length < fuel → parseStrBody fuel (escapeStr s ++ '"' :: rest) = .ok (s, rest)
  | _, _, 0, h => absurd h (Nat.not_lt_zero _)
  | [], rest, fuel + 1, _ => by
      show parseStrBody (fuel + 1) ('"' :: rest) = _
      rw [parseStrBody, if_pos rfl]
  | c :: cs, rest, fuel + 1, h => by
      have hsplit : escapeStr (c :: cs) ++ '"' :: rest =
          escapeChar c ++ (escapeStr cs ++ '"' :: rest) := by
        simp [escapeStr, List.append_assoc]
      rw [hsplit, parseStrBody_escapeChar,
        parseStrBody_escapeStr cs rest fuel (by simpa using Nat.lt_of_succ_lt_succ h)]
      rfl

/-- Skipping whitespace stops at a non-whitespace head. -/
theorem skipWs_nonws {c : Char} (l : List Char) (h : isWs c = false) :
    skipWs (c :: l) = c :: l := by
  simp [skipWs, List.dropWhile_cons, h]

/-- Skipping whitespace passes a whitespace head. -/
theorem skipWs_ws {c : Char} (l : List Char) (h : isWs c = true) :
    skipWs (c :: l) = skipWs l := by
  simp [skipWs, List.dropWhile_cons, h]

/-- A decimal digit is not one of the tokens the value reader tests first. -/
theorem isDigitCh_facts (d : Char) (hd : isDigitCh d = true) :
    d ≠ '{' ∧ d ≠ '[' ∧ d ≠ '"' ∧ d ≠ 't' ∧ d ≠ 'f' ∧ d ≠ 'n' ∧ d ≠ '-' ∧ isWs d = false := by
  simp only [isDigitCh, decide_eq_true_eq] at hd
  refine ⟨fun h => absurd hd (by subst h; decide), fun h => absurd hd (by subst h; decide),
    fun h => absurd hd (by subst h; decide), fun h => absurd hd (by subst h; decide),
    fun h => absurd hd (by subst h; decide), fun h => absurd hd (by subst h; decide),
    fun h => absurd hd (by subst h; decide), ?_⟩
  by_contra hw
  have hw2 : isWs d = true := by
    cases hws : isWs d with
    | true => rfl
    | false => exact absurd hws hw
  simp only [isWs, decide_eq_true_eq] at hw2
  rcases hw2 with h | h | h | h <;> (subst h; exact absurd hd (by decide))

/-- Values are read with any whitespace prefix skipped; after the prefix, rendered
strings read back as themselves. -/
theorem parseVal_str (s : PyStr) (l rest : List Char) (fuel : Nat)
    (hsk : skipWs l = renderString s ++ rest) :
    parseVal (fuel + 1) l = .ok (.str s, rest) := by
  have hr : renderString s ++ rest = '"' :: (escapeStr s ++ '"' :: rest) := by
    simp [renderString]
  have hlen : s.length < (escapeStr s ++ '"' :: rest).length + 1 := by
    have := escapeStr_length_ge s
    simp only [List.length_append, List.length_cons]
    omega
  have hbody := parseStrBody_escapeStr s rest ((escapeStr s ++ '"' :: rest).length + 1) hlen
  rw [hr] at hsk
  simp only [List.length_append, List.length_cons] at hbody
  simp only [parseVal, hsk]
  simp +decide [hbody, except_map_ok]

/-- A rest list is numeric-safe when it cannot extend a digit run. -/
def numRestOk (rest : List Char) : Prop :=
  rest = [] ∨ ∃ h t, rest = h :: t ∧ isDigitCh h = false

/-- Reading back a rendered non-negative numeral. -/
theorem parseVal_natNum (n : Nat) (l rest : List Char) (fuel : Nat)
    (hrest : numRestOk rest) (hsk : skipWs l = natDigits n ++ rest) :
    parseVal (fuel + 1) l = .ok (.num (Int.ofNat n), rest) := by
  rw [natDigits_eq] at hsk
  obtain ⟨d, ds, hds⟩ := List.exists_cons_of_ne_nil (toDigsWF_ne_nil n)
  have hd : isDigitCh d = true := toDigsWF_digits n d (by rw [hds]; simp)
  obtain ⟨h1, h2, h3, h4, h5, h6, h7, h8⟩ := isDigitCh_facts d hd
  have hco : toDigsWF n ++ rest = d :: (ds ++ rest) := by rw [hds]; rfl
  have htw := (takeWhile_toDigsWF n rest hrest).1
  have hdw := (takeWhile_toDigsWF n rest hrest).2
  rw [hco] at hsk htw hdw
  simp only [parseVal, hsk]
  simp only [List.headI_cons, List.tail_cons, h1, h2, h3, h4, h5, h6, h7]
  rw [if_neg (by simp), if_neg (by simp [h1]), if_neg (by simp [h2]), if_neg (by simp [h3]),
    if_neg (by simp [h4]), if_neg (by simp [h5]), if_neg (by simp [h6]), if_neg (by simp [h7]),
    if_pos (by simp [hd])]
  rw [htw, hdw, foldDigits_toDigsWF]
  rfl

/-- Reading back a rendered negative numeral. -/
theorem parseVal_negNum (n : Nat) (l rest : List Char) (fuel : Nat)
    (hrest : numRestOk rest) (hsk : skipWs l = intRepr (Int.negSucc n) ++ rest) :
    parseVal (fuel + 1) l = .ok (.num (Int.negSucc n), rest) := by
  have hir : intRepr (Int.negSucc n) = '-' :: toDigsWF (n + 1) := by
    rw [intRepr, natDigits_eq]
  rw [hir] at hsk
  have hco : ('-' :: toDigsWF (n + 1)) ++ rest = '-' :: (toDigsWF (n + 1) ++ rest) := rfl
  rw [hco] at hsk
  have htw := (takeWhile_toDigsWF (n + 1) rest hrest).1
  have hdw := (takeWhile_toDigsWF (n + 1) rest hrest).2
  simp only [parseVal, hsk]
  simp only [List.headI_cons, List.tail_cons]
  rw [if_neg (by simp), if_neg (by decide), if_neg (by decide), if_neg (by decide),
    if_neg (by decide), if_neg (by decide), if_neg (by decide), if_pos (by decide)]
  rw [htw, hdw, if_neg (toDigsWF_ne_nil (n + 1)), foldDigits_toDigsWF]
  have : -((n + 1 : Nat) : Int) = Int.negSucc n := by
    rw [Int.negSucc_eq]
    push_cast
    ring
  rw [this]

/-- The values that appear in the scripts' JWT payloads: strings and integers. -/
def flatVal : Json → Bool
  | .str _ => true
  | .num _ => true
  | _ => false

/-- The rendering of a flat value starts with a non-whitespace character. -/
theorem skipWs_dumps_flat (v : Json) (hf : flatVal v = true) (Z : List Char) :
    skipWs (dumps v ++ Z) = dumps v ++ Z := by
  match v, hf with
  | .str s, _ =>
      show skipWs ('"' :: (escapeStr s ++ ['"'] ++ Z)) = _
      exact skipWs_nonws _ (by decide)
  | .num (.ofNat n), _ =>
      have : dumps (.num (.ofNat n)) = toDigsWF n := by
        rw [dumps, intRepr, natDigits_eq]
      rw [this]
      obtain ⟨d, ds, hds⟩ := List.exists_cons_of_ne_nil (toDigsWF_ne_nil n)
      have hd : isDigitCh d = true := toDigsWF_digits n d (by rw [hds]; simp)
      rw [hds, List.cons_append]
      exact skipWs_nonws _ (isDigitCh_facts d hd).2.2.2.2.2.2.2
  | .num (.negSucc n), _ =>
      have : dumps (.num (.negSucc n)) = '-' :: natDigits (n + 1) := by
        rw [dumps, intRepr]
      rw [this, List.cons_append]
      exact skipWs_nonws _ (by decide)

/-- Reading back any rendered flat value. -/
theorem parseVal_flat (v : Json) (l rest : List Char) (fuel : Nat)
    (hf : flatVal v = true) (hrest : numRestOk rest)
    (hsk : skipWs l = dumps v ++ rest) :
    parseVal (fuel + 1) l = .ok (v, rest) := by
  match v, hf with
  | .str s, _ => exact parseVal_str s l rest fuel hsk
  | .num (.ofNat n), _ =>
      have hd : dumps (.num (.ofNat n)) = natDigits n := by rw [dumps, intRepr]
      rw [hd] at hsk
      exact parseVal_natNum n l rest fuel hrest hsk
  | .num (.negSucc n), _ =>
      have hd : dumps (.num (.negSucc n)) = intRepr (.negSucc n) := by rw [dumps]
      rw [hd] at hsk
      exact parseVal_negNum n l rest fuel hrest hsk

/-- A non-empty field list renders starting with the opening quote of its first key. -/
theorem dumpsFields_head (fs : List (PyStr × Json)) (hne : fs ≠ []) :
    ∃ X, dumpsFields fs = '"' :: X := by
  match fs, hne with
  | [(k, v)], _ =>
      refine ⟨escapeStr k ++ ['"'] ++ (':' :: ' ' :: dumps v), ?_⟩
      show renderString k ++ ':' :: ' ' :: dumps v = _
      simp [renderString]
  | (k, v) :: p :: t, _ =>
      refine ⟨escapeStr k ++ ['"'] ++ (':' :: ' ' :: (dumps v ++ ',' :: ' ' ::
        dumpsFields (p :: t))), ?_⟩
      show renderString k ++ ':' :: ' ' :: dumps v ++ ',' :: ' ' :: dumpsFields (p :: t) = _
      simp [renderString]

/-- Reading back a rendered non-empty field list followed by the closing brace. -/
theorem parseObjFields_dumpsFields :
    ∀ (fs : List (PyStr × Json)) (l rest : List Char) (fuel : Nat) (first : Bool),
      fs ≠ [] → (∀ p ∈ fs, flatVal p.2 = true) → fs.length ≤ fuel →
      skipWs l = dumpsFields fs ++ '}' :: rest →
      parseObjFields (fuel + 1) first l = .ok (fs, rest)
  | [(k, v)], l, rest, fuel, first, _, hflat, hfuel, hsk => by
      have hv : flatVal v = true := hflat (k, v) (by simp)
      have hone : dumpsFields [(k, v)] ++ '}' :: rest =
          '"' :: (escapeStr k ++ '"' :: (':' :: ' ' :: (dumps v ++ '}' :: rest))) := by
        show (renderString k ++ ':' :: ' ' :: dumps v) ++ '}' :: rest = _
        simp [renderString]
      rw [hone] at hsk
      obtain ⟨f2, rfl⟩ : ∃ f2, fuel = f2 + 1 := by
        cases fuel with
        | zero => simp at hfuel
        | succ m => exact ⟨m, rfl⟩
      have hstr := parseStrBody_escapeStr k (':' :: ' ' :: (dumps v ++ '}' :: rest))
        ((escapeStr k ++ '"' :: (':' :: ' ' :: (dumps v ++ '}' :: rest))).length + 1)
        (by simp only [List.length_append, List.length_cons]
            have := escapeStr_length_ge k
            omega)
      have hval : parseVal (f2 + 1) (' ' :: (dumps v ++ '}' :: rest)) =
          .ok (v, '}' :: rest) := by
        refine parseVal_flat v _ _ _ hv (Or.inr ⟨'}', rest, rfl, by decide⟩) ?_
        rw [skipWs_ws _ (by decide)]
        exact skipWs_dumps_flat v hv ('}' :: rest)
      have hsk2 : skipWs (':' :: ' ' :: (dumps v ++ '}' :: rest)) =
          ':' :: (' ' :: (dumps v ++ '}' :: rest)) := skipWs_nonws _ (by decide)
      have hsk3 : skipWs ('}' :: rest) = '}' :: rest := skipWs_nonws _ (by decide)
      rw [parseObjFields]
      simp +decide only [hsk, hsk2, hsk3, List.headI_cons, List.tail_cons,
        hstr, except_bind_ok, hval, reduceIte, List.cons_ne_nil, and_false, if_false]
  | (k, v) :: p :: t, l, rest, fuel, first, _, hflat, hfuel, hsk => by
      have hv : flatVal v = true := hflat (k, v) (by simp)
      have hone : dumpsFields ((k, v) :: p :: t) ++ '}' :: rest =
          '"' :: (escapeStr k ++ '"' :: (':' :: ' ' :: (dumps v ++ ',' :: ' ' ::
            (dumpsFields (p :: t) ++ '}' :: rest)))) := by
        show (renderString k ++ ':' :: ' ' :: dumps v ++ ',' :: ' ' ::
          dumpsFields (p :: t)) ++ '}' :: rest = _
        simp [renderString]
      rw [hone] at hsk
      obtain ⟨f2, rfl⟩ : ∃ f2, fuel = f2 + 1 := by
        cases fuel with
        | zero => simp only [List.length_cons] at hfuel; omega
        | succ m => exact ⟨m, rfl⟩
      obtain ⟨f3, rfl⟩ : ∃ f3, f2 = f3 + 1 := by
        cases f2 with
        | zero => simp only [List.length_cons] at hfuel; omega
        | succ m => exact ⟨m, rfl⟩
      have hstr := parseStrBody_escapeStr k
        (':' :: ' ' :: (dumps v ++ ',' :: ' ' :: (dumpsFields (p :: t) ++ '}' :: rest)))
        ((escapeStr k ++ '"' :: (':' :: ' ' :: (dumps v ++ ',' :: ' ' ::
          (dumpsFields (p :: t) ++ '}' :: rest)))).length + 1)
        (by simp only [List.length_append, List.length_cons]
            have := escapeStr_length_ge k
            omega)
      have hval : parseVal (f3 + 1 + 1)
          (' ' :: (dumps v ++ ',' :: ' ' :: (dumpsFields (p :: t) ++ '}' :: rest))) =
          .ok (v, ',' :: ' ' :: (dumpsFields (p :: t) ++ '}' :: rest)) := by
        refine parseVal_flat v _ _ _ hv (Or.inr ⟨',', _, rfl, by decide⟩) ?_
        rw [skipWs_ws _ (by decide)]
        exact skipWs_dumps_flat v hv _
      obtain ⟨X, hX⟩ := dumpsFields_head (p :: t) (by simp)
      have hrec : parseObjFields (f3 + 1 + 1) false
          (' ' :: (dumpsFields (p :: t) ++ '}' :: rest)) = .ok (p :: t, rest) := by
        refine parseObjFields_dumpsFields (p :: t) _ rest (f3 + 1) false (by simp)
          (fun q hq => hflat q (by simp [hq])) ?_ ?_
        · simp only [List.length_cons] at hfuel ⊢
          omega
        · rw [skipWs_ws _ (by decide), hX, List.cons_append]
          rw [skipWs_nonws _ (by decide), ← List.cons_append, ← hX]
      have hsk2 : skipWs (':' :: ' ' :: (dumps v ++ ',' :: ' ' ::
          (dumpsFields (p :: t) ++ '}' :: rest))) =
          ':' :: (' ' :: (dumps v ++ ',' :: ' ' :: (dumpsFields (p :: t) ++ '}' :: rest))) :=
        skipWs_nonws _ (by decide)
      have hsk3 : skipWs (',' :: ' ' :: (dumpsFields (p :: t) ++ '}' :: rest)) =
          ',' :: (' ' :: (dumpsFields (p :: t) ++ '}' :: rest)) := skipWs_nonws _ (by decide)
      rw [parseObjFields]
      simp +decide only [hsk, hsk2, hsk3, List.headI_cons, List.tail_cons,
        hstr, except_bind_ok, hval, hrec, except_map_ok, reduceIte, List.cons_ne_nil,
        and_false, if_false]

/-- Reading back a rendered flat object. -/
theorem parseVal_objFlat (fs : List (PyStr × Json)) (l rest : List Char) (fuel : Nat)
    (hflat : ∀ p ∈ fs, flatVal p.2 = true) (hfuel : fs.length ≤ fuel)
    (hsk : skipWs l = dumps (.obj fs) ++ rest) :
    parseVal (fuel + 2) l = .ok (.obj fs, rest) := by
  have hskx : skipWs l = '{' :: (dumpsFields fs ++ '}' :: rest) := by
    rw [hsk]
    show ('{' :: (dumpsFields fs ++ ['}'])) ++ rest = _
    simp
  rw [show fuel + 2 = (fuel + 1) + 1 from rfl, parseVal]
  rw [hskx]
  rw [if_neg (by simp), List.headI_cons, List.tail_cons, if_pos rfl]
  cases fs with
  | nil =>
      show (fun p => (Json.obj p.1, p.2)) <$>
        parseObjFields (fuel + 1) true ('}' :: rest) = _
      rw [parseObjFields, skipWs_nonws _ (by decide)]
      rw [if_neg (by simp), if_pos ⟨rfl, by simp⟩]
      rfl
  | cons q fs2 =>
      obtain ⟨X, hX⟩ := dumpsFields_head (q :: fs2) (by simp)
      have hsk4 : skipWs (dumpsFields (q :: fs2) ++ '}' :: rest) =
          dumpsFields (q :: fs2) ++ '}' :: rest := by
        rw [hX, List.cons_append]
        exact skipWs_nonws _ (by decide)
      rw [parseObjFields_dumpsFields (q :: fs2) _ rest fuel true (by simp) hflat hfuel hsk4]
      rfl

theorem dumpsFields_length_ge : ∀ fs : List (PyStr × Json), fs.length ≤ (dumpsFields fs).length
  | [] => le_refl _
  | [(k, v)] => by
      show 1 ≤ (renderString k ++ ':' :: ' ' :: dumps v).length
      simp [renderString]
  | (k, v) :: p :: t => by
      have ih := dumpsFields_length_ge (p :: t)
      show (p :: t).length + 1 ≤
        (renderString k ++ ':' :: ' ' :: dumps v ++ ',' :: ' ' :: dumpsFields (p :: t)).length
      simp only [renderString, List.length_append, List.length_cons]
      simp only [List.length_cons] at ih
      omega

/-- `json.loads` reads back what `json.dumps` wrote, for a flat object. -/
theorem jsonLoads_dumpsObj (fs : List (PyStr × Json))
    (hflat : ∀ p ∈ fs, flatVal p.2 = true) :
    jsonLoads (dumps (.obj fs)) = .ok (.obj fs) := by
  have hlen : (dumps (.obj fs)).length = (dumpsFields fs).length + 2 := by
    show ('{' :: (dumpsFields fs ++ ['}'])).length = _
    simp
  have hsk : skipWs (dumps (.obj fs)) = dumps (.obj fs) ++ [] := by
    rw [List.append_nil]
    show skipWs ('{' :: (dumpsFields fs ++ ['}'])) = _
    exact skipWs_nonws _ (by decide)
  have hparse := parseVal_objFlat fs (dumps (.obj fs)) [] ((dumpsFields fs).length + 1)
    hflat (le_trans (dumpsFields_length_ge fs) (Nat.le_succ _)) hsk
  rw [jsonLoads, hlen]
  rw [show (dumpsFields fs).length + 2 + 1 = (dumpsFields fs).length + 1 + 2 from rfl]
  rw [hparse]
  rfl

/-! ## `ensure_ascii`: the rendered text is ASCII, and UTF-8 is transparent on it -/

theorem hexChar_lt128 : ∀ d < 16, (hexChar d).toNat < 128 := by decide

theorem u16hex_ascii (n : Nat) : ∀ x ∈ u16hex n, x.toNat < 128 := by
  intro x hx
  simp only [u16hex, List.mem_cons, List.not_mem_nil, or_false] at hx
  rcases hx with rfl | rfl | rfl | rfl | rfl | rfl
  · decide
  · decide
  · exact hexChar_lt128 _ (Nat.mod_lt _ (by omega))
  · exact hexChar_lt128 _ (Nat.mod_lt _ (by omega))
  · exact hexChar_lt128 _ (Nat.mod_lt _ (by omega))
  · exact hexChar_lt128 _ (Nat.mod_lt _ (by omega))

theorem escapeChar_ascii (c : Char) : ∀ x ∈ escapeChar c, x.toNat < 128 := by
  intro x hx
  unfold escapeChar at hx
  split_ifs at hx with h1 h2 h3 h4 h5 h6 h7 h8 h9
  · simp only [List.mem_cons, List.not_mem_nil, or_false] at hx
    rcases hx with rfl | rfl <;> decide
  · simp only [List.mem_cons, List.not_mem_nil, or_false] at hx
    rcases hx with rfl | rfl <;> decide
  · simp only [List.mem_cons, List.not_mem_nil, or_false] at hx
    rcases hx with rfl | rfl <;> decide
  · simp only [List.mem_cons, List.not_mem_nil, or_false] at hx
    rcases hx with rfl | rfl <;> decide
  · simp only [List.mem_cons, List.not_mem_nil, or_false] at hx
    rcases hx with rfl | rfl <;> decide
  · simp only [List.mem_cons, List.not_mem_nil, or_false] at hx
    rcases hx with rfl | rfl <;> decide
  · simp only [List.mem_cons, List.not_mem_nil, or_false] at hx
    rcases hx with rfl | rfl <;> decide
  · simp only [List.mem_singleton] at hx
    subst hx
    omega
  · exact u16hex_ascii _ x hx
  · rcases List.mem_append.mp hx with h | h
    · exact u16hex_ascii _ x h
    · exact u16hex_ascii _ x h

theorem isDigitCh_lt128 (c : Char) (h : isDigitCh c = true) : c.toNat < 128 := by
  simp only [isDigitCh, decide_eq_true_eq] at h
  omega

theorem renderString_ascii (s : PyStr) : ∀ c ∈ renderString s, c.toNat < 128 := by
  intro c hc
  rw [renderString] at hc
  rcases List.mem_cons.mp hc with rfl | hc2
  · decide
  rcases List.mem_append.mp hc2 with hc3 | hc3
  · rw [escapeStr] at hc3
    obtain ⟨x, _, hcx⟩ := List.mem_flatMap.mp hc3
    exact escapeChar_ascii x c hcx
  · rw [List.mem_singleton.mp hc3]
    decide

theorem intRepr_ascii (i : Int) : ∀ c ∈ intRepr i, c.toNat < 128 := by
  intro c hc
  cases i with
  | ofNat n =>
      rw [intRepr, natDigits_eq] at hc
      exact isDigitCh_lt128 c (toDigsWF_digits n c hc)
  | negSucc n =>
      rw [intRepr, natDigits_eq] at hc
      rcases List.mem_cons.mp hc with rfl | hc2
      · decide
      · exact isDigitCh_lt128 c (toDigsWF_digits (n + 1) c hc2)

mutual

/-- Everything `json.dumps` emits is ASCII (`ensure_ascii=True`). -/
theorem dumps_ascii : ∀ v : Json, ∀ c ∈ dumps v, c.toNat < 128
  | .null => by
      intro c hc
      rw [show dumps .null = ['n', 'u', 'l', 'l'] from rfl] at hc
      rcases List.mem_cons.mp hc with rfl | hc
      · decide
      rcases List.mem_cons.mp hc with rfl | hc
      · decide
      rcases List.mem_cons.mp hc with rfl | hc
      · decide
      rcases List.mem_cons.mp hc with rfl | hc
      · decide
      simp at hc
  | .bool true => by
      intro c hc
      rw [show dumps (.bool true) = ['t', 'r', 'u', 'e'] from rfl] at hc
      rcases List.mem_cons.mp hc with rfl | hc
      · decide
      rcases List.mem_cons.mp hc with rfl | hc
      · decide
      rcases List.mem_cons.mp hc with rfl | hc
      · decide
      rcases List.mem_cons.mp hc with rfl | hc
      · decide
      simp at hc
  | .bool false => by
      intro c hc
      rw [show dumps (.bool false) = ['f', 'a', 'l', 's', 'e'] from rfl] at hc
      rcases List.mem_cons.mp hc with rfl | hc
      · decide
      rcases List.mem_cons.mp hc with rfl | hc
      · decide
      rcases List.mem_cons.mp hc with rfl | hc
      · decide
      rcases List.mem_cons.mp hc with rfl | hc
      · decide
      rcases List.mem_cons.mp hc with rfl | hc
      · decide
      simp at hc
  | .num i => by
      intro c hc
      rw [show dumps (.num i) = intRepr i from rfl] at hc
      exact intRepr_ascii i c hc
  | .str s => by
      intro c hc
      rw [show dumps (.str s) = renderString s from rfl] at hc
      exact renderString_ascii s c hc
  | .arr es => by
      intro c hc
      rw [show dumps (.arr es) = '[' :: (dumpsElems es ++ [']']) from rfl] at hc
      rcases List.mem_cons.mp hc with rfl | hc
      · decide
      rcases List.mem_append.mp hc with hc | hc
      · exact dumpsElems_ascii es c hc
      · rw [List.mem_singleton.mp hc]
        decide
  | .obj fs => by
      intro c hc
      rw [show dumps (.obj fs) = '{' :: (dumpsFields fs ++ ['}']) from rfl] at hc
      rcases List.mem_cons.mp hc with rfl | hc
      · decide
      rcases List.mem_append.mp hc with hc | hc
      · exact dumpsFields_ascii fs c hc
      · rw [List.mem_singleton.mp hc]
        decide

theorem dumpsElems_ascii : ∀ es : List Json, ∀ c ∈ dumpsElems es, c.toNat < 128
  | [] => by
      intro c hc
      simp [dumpsElems] at hc
  | [v] => by
      intro c hc
      rw [show dumpsElems [v] = dumps v from rfl] at hc
      exact dumps_ascii v c hc
  | v :: p :: t => by
      intro c hc
      rw [show dumpsElems (v :: p :: t) = dumps v ++ ',' :: ' ' :: dumpsElems (p :: t)
        from rfl] at hc
      rcases List.mem_append.mp hc with hc | hc
      · exact dumps_ascii v c hc
      rcases List.mem_cons.mp hc with rfl | hc
      · decide
      rcases List.mem_cons.mp hc with rfl | hc
      · decide
      exact dumpsElems_ascii (p :: t) c hc

theorem dumpsFields_ascii :
    ∀ fs : List (PyStr × Json), ∀ c ∈ dumpsFields fs, c.toNat < 128
  | [] => by
      intro c hc
      simp [dumpsFields] at hc
  | [(k, v)] => by
      intro c hc
      rw [show dumpsFields [(k, v)] = renderString k ++ ':' :: ' ' :: dumps v from rfl] at hc
      rcases List.mem_append.mp hc with hc | hc
      · exact renderString_ascii k c hc
      rcases List.mem_cons.mp hc with rfl | hc
      · decide
      rcases List.mem_cons.mp hc with rfl | hc
      · decide
      exact dumps_ascii v c hc
  | (k, v) :: p :: t => by
      intro c hc
      rw [show dumpsFields ((k, v) :: p :: t) = renderString k ++
        (':' :: ' ' :: (dumps v ++ (',' :: ' ' :: dumpsFields (p :: t)))) from by
          show renderString k ++ ':' :: ' ' :: dumps v ++ ',' :: ' ' ::
            dumpsFields (p :: t) = _
          simp [List.append_assoc]] at hc
      rcases List.mem_append.mp hc with hc | hc
      · exact renderString_ascii k c hc
      rcases List.mem_cons.mp hc with rfl | hc
      · decide
      rcases List.mem_cons.mp hc with rfl | hc
      · decide
      rcases List.mem_append.mp hc with hc | hc
      · exact dumps_ascii v c hc
      rcases List.mem_cons.mp hc with rfl | hc
      · decide
      rcases List.mem_cons.mp hc with rfl | hc
      · decide
      exact dumpsFields_ascii (p :: t) c hc

end

theorem utf8EncodeChar_ascii {n : Nat} (h : n < 128) : utf8EncodeChar n = [n] := by
  rw [utf8EncodeChar, if_pos h]

theorem utf8Encode_ascii : ∀ s : PyStr, (∀ c ∈ s, c.toNat < 128) →
    utf8Encode s = s.map Char.toNat
  | [], _ => rfl
  | c :: cs, h => by
      have hc := h c (by simp)
      have ih := utf8Encode_ascii cs (fun x hx => h x (by simp [hx]))
      show utf8EncodeChar c.toNat ++ utf8Encode cs = _
      rw [utf8EncodeChar_ascii hc, ih, List.map_cons]
      rfl

/-- One-step unfolding of the decoder on a non-empty byte list, proved by
reduction so that the generated equations are never needed. -/
theorem utf8Decode_cons (fuel b : Nat) (rest : PyBytes) :
    utf8Decode (fuel + 1) (b :: rest) =
      if b < 128 then
        match mkChar b with
        | some c => (fun s => c :: s) <$> utf8Decode fuel rest
        | none => .error udErr
      else if 194 ≤ b ∧ b ≤ 223 then
        if utf8Cont2 rest then
          match mkChar (utf8Val2 b rest) with
          | some c => (fun s => c :: s) <$> utf8Decode fuel rest.tail
          | none => .error udErr
        else .error udErr
      else if 224 ≤ b ∧ b ≤ 239 then
        if utf8Cont3 b rest then
          match mkChar (utf8Val3 b rest) with
          | some c => (fun s => c :: s) <$> utf8Decode fuel rest.tail.tail
          | none => .error udErr
        else .error udErr
      else if 240 ≤ b ∧ b ≤ 244 then
        if utf8Cont4 b rest then
          match mkChar (utf8Val4 b rest) with
          | some c => (fun s => c :: s) <$> utf8Decode fuel rest.tail.tail.tail
          | none => .error udErr
        else .error udErr
      else .error udErr := rfl

theorem utf8Decode_map_ascii : ∀ (s : PyStr) (fuel : Nat), (∀ c ∈ s, c.toNat < 128) →
    s.length < fuel → utf8Decode fuel (s.map Char.toNat) = .ok s
  | _, 0, _, h => absurd h (Nat.not_lt_zero _)
  | [], _ + 1, _, _ => rfl
  | c :: cs, fuel + 1, h, hlen => by
      have hc := h c (by simp)
      have ih := utf8Decode_map_ascii cs fuel (fun x hx => h x (by simp [hx]))
        (by simpa using hlen)
      rw [List.map_cons, utf8Decode_cons, if_pos hc, mkChar, if_pos (char_toNat_valid c),
        Char.ofNat_toNat, ih]
      rfl

/-- `json.loads` on the UTF-8 bytes of a rendered flat object reads it back. -/
theorem jsonLoadsBytes_dumpsObj (fs : List (PyStr × Json))
    (hflat : ∀ p ∈ fs, flatVal p.2 = true) :
    jsonLoadsBytes (utf8Encode (dumps (.obj fs))) = .ok (.obj fs) := by
  have hascii := dumps_ascii (.obj fs)
  rw [jsonLoadsBytes, utf8Encode_ascii _ hascii, List.length_map,
    utf8Decode_map_ascii _ _ hascii (Nat.lt_succ_self _), except_bind_ok,
    jsonLoads_dumpsObj fs hflat]

/-! ## Python value semantics: truthiness, `in`, subscription, `dict.get` -/

/-- Lookup in a parsed object: the last binding of a repeated name wins, as in the
`dict` Python's parser builds. -/
def lookupLast : List (PyStr × Json) → PyStr → Option Json
  | [], _ => none
  | (k2, v) :: rest, k =>
      match lookupLast rest k with
      | some r => some r
      | none => if k2 = k then some v else none

/-- Python truthiness of a JSON value. -/
def pyTruthy : Json → Bool
  | .null => false
  | .bool b => b
  | .num n => n ≠ 0
  | .str s => s ≠ []
  | .arr es => es ≠ []
  | .obj fs => fs ≠ []

/-- Substring test, the meaning of `needle in haystack` on Python strings. -/
def isSubstr (n : PyStr) : List Char → Bool
  | [] => n.isPrefixOf []
  | c :: t => n.isPrefixOf (c :: t) || isSubstr n t

/-- Python's `needle in v`: key test on a dict, element test on a list, substring
test on a string, `TypeError` otherwise. -/
def pyIn (needle : PyStr) : Json → Except PyErr Bool
  | .obj fs => .ok (fs.any (fun p => p.1 = needle))
  | .arr es => .ok (es.any (fun e => e = .str needle))
  | .str s => .ok (isSubstr needle s)
  | _ => .error ⟨.typeError, "argument of type is not iterable".toList⟩

/-- Python's `v[key]` with a string key: dict lookup (raising `KeyError` when the
key is absent), `TypeError` on any non-dict. -/
def pySubscript (v : Json) (k : PyStr) : Except PyErr Json :=
  match v with
  | .obj fs =>
      match lookupLast fs k with
      | some r => .ok r
      | none => .error ⟨.keyError, k⟩
  | _ => .error ⟨.typeError, "indices must be str".toList⟩

/-- Python's `v.get(key, default)`: only dicts have `.get`. -/
def pyGet (v : Json) (k : PyStr) (dflt : Json) : Except PyErr Json :=
  match v with
  | .obj fs => .ok ((lookupLast fs k).getD dflt)
  | _ => .error ⟨.attributeError, "object has no attribute get".toList⟩

/-! ## SHA-256 (FIPS 180-4), backing `hashlib.sha256` -/

/-- Truncate to 32 bits. -/
def w32 (n : Nat) : Nat := n % 4294967296

/-- Right rotation of a 32-bit word. -/
def rotr (k x : Nat) : Nat := w32 (x / 2 ^ k + x % 2 ^ k * 2 ^ (32 - k))

/-- The SHA-256 round constants. -/
def shaK : List Nat :=
  [1116352408, 1899447441, 3049323471, 3921009573, 961987163, 1508970993,
   2453635748, 2870763221, 3624381080, 310598401, 607225278, 1426881987,
   1925078388, 2162078206, 2614888103, 3248222580, 3835390401, 4022224774,
   264347078, 604807628, 770255983, 1249150122, 1555081692, 1996064986,
   2554220882, 2821834349, 2952996808, 3210313671, 3336571891, 3584528711,
   113926993, 338241895, 666307205, 773529912, 1294757372, 1396182291,
   1695183700, 1986661051, 2177026350, 2456956037, 2730485921, 2820302411,
   3259730800, 3345764771, 3516065817, 3600352804, 4094571909, 275423344,
   430227734, 506948616, 659060556, 883997877, 958139571, 1322822218,
   1537002063, 1747873779, 1955562222, 2024104815, 2227730452, 2361852424,
   2428436474, 2756734187, 3204031479, 3329325298]

/-- The SHA-256 initial hash value. -/
def shaH0 : List Nat :=
  [1779033703, 3144134277, 1013904242, 2773480762, 1359893119, 2600822924,
   528734635, 1541459225]

/-- Eight-byte big-endian encoding of the bit length. -/
def be8 (n : Nat) : PyBytes :=
  [n / 2 ^ 56 % 256, n / 2 ^ 48 % 256, n / 2 ^ 40 % 256, n / 2 ^ 32 % 256,
   n / 2 ^ 24 % 256, n / 2 ^ 16 % 256, n / 2 ^ 8 % 256, n % 256]

/-- Merkle–Damgård padding to a multiple of 64 bytes. -/
def sha256Pad (msg : PyBytes) : PyBytes :=
  msg ++ 128 :: (List.replicate ((119 - msg.length % 64) % 64) 0 ++ be8 (8 * msg.length))

/-- Four bytes to one 32-bit word, big-endian. -/
def toWords : PyBytes → List Nat
  | a :: b :: c :: d :: r => (a * 16777216 + b * 65536 + c * 256 + d) :: toWords r
  | _ => []

/-- Extend the 16 message words to 64. -/
def extendW (w : List Nat) : Nat → List Nat
  | 0 => w
  | k + 1 =>
      let x15 := w.getD (w.length - 15) 0
      let x2 := w.getD (w.length - 2) 0
      let s0 := rotr 7 x15 ^^^ rotr 18 x15 ^^^ x15 / 8
      let s1 := rotr 17 x2 ^^^ rotr 19 x2 ^^^ x2 / 1024
      extendW (w ++ [w32 (w.getD (w.length - 16) 0 + s0 + w.getD (w.length - 7) 0 + s1)]) k

/-- One SHA-256 compression round. -/
def shaRound (st : List Nat) (kw : Nat × Nat) : List Nat :=
  match st with
  | [a, b, c, d, e, f, g, h] =>
      let S1 := rotr 6 e ^^^ rotr 11 e ^^^ rotr 25 e
      let ch := (e &&& f) ^^^ ((e ^^^ 4294967295) &&& g)
      let temp1 := w32 (h + S1 + ch + kw.1 + kw.2)
      let S0 := rotr 2 a ^^^ rotr 13 a ^^^ rotr 22 a
      let maj := (a &&& b) ^^^ (a &&& c) ^^^ (b &&& c)
      let temp2 := w32 (S0 + maj)
      [w32 (temp1 + temp2), a, b, c, w32 (d + temp1), e, f, g]
  | st => st

/-- Compress one 64-byte chunk into the running hash. -/
def shaCompress (hs : List Nat) (chunk : PyBytes) : List Nat :=
  let w := extendW (toWords chunk) 48
  let final := (shaK.zip w).foldl shaRound hs
  (hs.zip final).map (fun p => w32 (p.1 + p.2))

/-- Split into 64-byte chunks. -/
def splitChunks (l : PyBytes) : List PyBytes :=
  if h : l = [] then []
  else l.take 64 :: splitChunks (l.drop 64)
termination_by l.length
decreasing_by
  cases l with
  | nil => exact absurd rfl h
  | cons x xs =>
      simp only [List.length_drop, List.length_cons]
      omega

/-- `hashlib.sha256(...).digest()`. -/
def sha256 (msg : PyBytes) : PyBytes :=
  ((splitChunks (sha256Pad msg)).foldl shaCompress shaH0).flatMap
    (fun h => [h / 16777216 % 256, h / 65536 % 256, h / 256 % 256, h % 256])

/-! ## Embedding of the scripts

Randomness (`secrets`, RSA key generation) and the network are oracles passed as
arguments; everything deterministic is computed exactly as the source does. -/

/-- `b64url` on a `str` argument: encode to UTF-8, base64url-encode, strip padding. -/
def b64url_str (s : PyStr) : PyStr := b64urlNoPad (utf8Encode s)

/-- `b64url` on a `bytes` argument. -/
def b64url_bytes (b : PyBytes) : PyStr := b64urlNoPad b

/-- `n.to_bytes((n.bit_length() + 7) // 8, byteorder="big")`: minimal big-endian
bytes, empty for zero. -/
def natToBEBytesAux : Nat → Nat → PyBytes → PyBytes
  | 0, _, acc => acc
  | fuel + 1, n, acc =>
      if n = 0 then acc else natToBEBytesAux fuel (n / 256) (n % 256 :: acc)

def natToBEBytes (n : Nat) : PyBytes := natToBEBytesAux (n + 1) n []

/-- The `int_to_b64url` helper of `generate_rsa_key_and_proof` (its `length=None`
path, the one used). -/
def int_to_b64url (n : Nat) : PyStr := b64url_bytes (natToBEBytes n)

/-- `secrets.token_urlsafe(32)` on the 32 random bytes the oracle provides. -/
def token_urlsafe (seed : PyBytes) : PyStr := b64urlNoPad seed

/-- `generate_pkce` (the same code in `issue_brazilian_credentials.py` and
`govbr_token.py`).  The verifier's characters are in the base64url alphabet, so
`.encode("ascii")` is the scalar value of each character. -/
def generate_pkce (seed : PyBytes) : PyStr × PyStr :=
  let code_verifier := (token_urlsafe seed).take 43
  let digest := sha256 (code_verifier.map Char.toNat)
  let code_challenge := b64urlNoPad digest
  (code_verifier, code_challenge)

/-- Python `str.split(sep)` for a one-character separator: always non-empty. -/
def splitOnChar (sep : Char) : PyStr → List PyStr
  | [] => [[]]
  | c :: t =>
      if c = sep then [] :: splitOnChar sep t
      else
        match splitOnChar sep t with
        | h :: r => (c :: h) :: r
        | [] => [[c]]

/-- `decode_jwt_payload`: take the second dot-separated part, re-pad, base64url-
decode, read the JSON. -/
def decode_jwt_payload (token : PyStr) : Except PyErr Json :=
  match (splitOnChar '.' token).get? 1 with
  | none => .error ⟨.indexError, "list index out of range".toList⟩
  | some payload_b64 =>
      match b64decode (payload_b64 ++ List.replicate (4 - payload_b64.length % 4) '=') with
      | .error e => .error e
      | .ok bytes => jsonLoadsBytes bytes

/-- The JWT payload assembled by `generate_rsa_key_and_proof` of
`issue_brazilian_credentials.py` (and by its `_stdlib` fallback): `iss` only for
a truthy `client_id`, `nonce` only for a truthy nonce value, never `sub`. -/
def ibcPayload (certify_identifier client_id : PyStr) (nonce : Option Json)
    (now : Nat) : Json :=
  .obj ([("aud".toList, .str certify_identifier),
         ("iat".toList, .num now),
         ("exp".toList, .num (now + 300))] ++
    (if client_id ≠ [] then [("iss".toList, .str client_id)] else []) ++
    (match nonce with
     | some v => if pyTruthy v then [("nonce".toList, v)] else []
     | none => []))

/-- The JWT payload assembled by `generate_rsa_key_and_proof` of
`govbr_token.py` (and its `_stdlib` fallback): `iss` always present, no `sub`,
no nonce round. -/
def gtPayload (certify_identifier client_id : PyStr) (now : Nat) : Json :=
  .obj [("iss".toList, .str client_id),
        ("aud".toList, .str certify_identifier),
        ("iat".toList, .num now),
        ("exp".toList, .num (now + 300))]

/-- The JWT payload assembled by `generate_rsa_key_and_proof` of
`govbr_token_local.py` (and its `_stdlib` fallback): `iss` and `sub` always
present, `nonce` for a truthy challenge. -/
def gtlPayload (certify_identifier client_id : PyStr) (c_nonce : Option Json)
    (now : Nat) : Json :=
  .obj ([("iss".toList, .str client_id),
         ("sub".toList, .str client_id),
         ("aud".toList, .str certify_identifier),
         ("iat".toList, .num now),
         ("exp".toList, .num (now + 300))] ++
    (match c_nonce with
     | some v => if pyTruthy v then [("nonce".toList, v)] else []
     | none => []))

/-- The JWK built from the RSA public numbers. -/
def ibcJwk (pubN pubE : Nat) : Json :=
  .obj [("kty".toList, .str "RSA".toList),
        ("n".toList, .str (int_to_b64url pubN)),
        ("e".toList, .str (int_to_b64url pubE))]

/-- The proof JWT header. -/
def ibcHeader (jwk : Json) : Json :=
  .obj [("typ".toList, .str "openid4vci-proof+jwt".toList),
        ("alg".toList, .str "RS256".toList),
        ("jwk".toList, jwk)]

/-- `generate_rsa_key_and_proof` of `issue_brazilian_credentials.py`: the fresh
RSA key and the PKCS#1 signature are oracle inputs (`pubN`, `pubE`, `sig`); the
header, payload, encoding and joining are computed as the source does. -/
def generate_rsa_key_and_proof (certify_identifier client_id : PyStr)
    (nonce : Option Json) (now : Nat) (pubN pubE : Nat) (sig : PyBytes) :
    PyStr × Json :=
  let jwk := ibcJwk pubN pubE
  let header := ibcHeader jwk
  let payload := ibcPayload certify_identifier client_id nonce now
  let signing_input := b64url_str (dumps header) ++ '.' :: b64url_str (dumps payload)
  (signing_input ++ '.' :: b64url_bytes sig, jwk)

/-- What the network gives one `urlopen` call: body and status of a 2xx
response, an `urllib.error.HTTPError` with its code, reason and already-decoded
body text, or any other exception (URLError, timeout, ...). -/
inductive HttpResult where
  | success (bodyBytes : PyBytes) (status : Nat)
  | httpError (code : Nat) (reason : PyStr) (raw : PyStr)
  | exn (msg : PyStr)
  deriving Repr

/-- The fallback dict `_post_credential` builds for a non-JSON error body. -/
def errObj (code : Nat) (reason raw : PyStr) : Json :=
  .obj [("error".toList, .str ("HTTP ".toList ++ natDigits code)),
        ("detail".toList, .str reason),
        ("body".toList, .str raw)]

/-- `_post_credential`: one POST and the translation of its outcome, given the
oracle's `HttpResult` for this call.  The request body and headers only flow to
the network, so they are absorbed by the oracle; `json.loads` of a 2xx body is
unguarded and raises through (only `HTTPError` is caught). -/
def post_credential (r : HttpResult) : Except PyErr (Json × Nat) :=
  match r with
  | .success bodyBytes status =>
      match jsonLoadsBytes bodyBytes with
      | .ok j => .ok (j, status)
      | .error e => .error e
  | .httpError code reason raw =>
      if raw ≠ [] then
        match jsonLoads raw with
        | .ok j => .ok (j, code)
        | .error _ => .ok (errObj code reason raw, code)
      else .ok (errObj code reason [], code)
  | .exn msg => .error ⟨.urlError, msg⟩

/-- One credential-endpoint call as the trace records it: the process-global
socket default timeout in force when the call was made, the nonce argument the
proof JWT of that call was built with, and the JWT itself. -/
structure CallRec where
  timeoutAtCall : Option Int
  nonceArg : Option Json
  jwtSent : PyStr
  deriving DecidableEq

/-- The `try` block of `request_credential`: round 1, the
`status == 400 and "c_nonce" in result` test, and the optional round 2.  `env`
is the network oracle (call number to result), `tmo` the global timeout that is
in force throughout the block; any Python exception surfaces in the `Except`.
The trace lists the calls made, in order. -/
def requestCredentialTry (env : Nat → HttpResult)
    (certify_identifier client_id : PyStr) (now pubN pubE : Nat) (sig : PyBytes)
    (tmo : Option Int) : Except PyErr (Json × Nat) × List CallRec :=
  let jwt1 := (generate_rsa_key_and_proof certify_identifier client_id none now
    pubN pubE sig).1
  let rec1 : CallRec := ⟨tmo, none, jwt1⟩
  match post_credential (env 0) with
  | .error e => (.error e, [rec1])
  | .ok (result, status) =>
      if status = 400 then
        match pyIn "c_nonce".toList result with
        | .error e => (.error e, [rec1])
        | .ok b =>
            if b then
              match pySubscript result "c_nonce".toList with
              | .error e => (.error e, [rec1])
              | .ok c_nonce =>
                  let jwt2 := (generate_rsa_key_and_proof certify_identifier
                    client_id (some c_nonce) now pubN pubE sig).1
                  let rec2 : CallRec := ⟨tmo, some c_nonce, jwt2⟩
                  match post_credential (env 1) with
                  | .error e => (.error e, [rec1, rec2])
                  | .ok r2 => (.ok r2, [rec1, rec2])
            else (.ok (result, status), [rec1])
      else (.ok (result, status), [rec1])

/-- `request_credential`: save `socket.getdefaulttimeout()`, install `timeout`,
run the try block, map any exception to `({"error": "timeout", ...}, 0)`, and in
`finally` restore the saved default.  Returns the `(result, status)` pair the
function returns, the global default timeout after it returns, and the trace of
credential-endpoint calls. -/
def request_credential (env : Nat → HttpResult) (certify_identifier client_id : PyStr)
    (now pubN pubE : Nat) (sig : PyBytes) (timeout : Int)
    (initialTimeout : Option Int) : (Json × Nat) × Option Int × List CallRec :=
  let tr := requestCredentialTry env certify_identifier client_id now pubN pubE sig
    (some timeout)
  match tr.1 with
  | .ok r => (r, initialTimeout, tr.2)
  | .error e =>
      ((.obj [("error".toList, .str "timeout".toList),
              ("error_description".toList, .str e.msg)], 0), initialTimeout, tr.2)

/-- `urllib.parse.urlparse(path).query`: the part after the first `?`, with any
`#`-fragment removed; empty when there is no `?`. -/
def urlparse_query (path : PyStr) : PyStr :=
  let noFrag := path.takeWhile (· ≠ '#')
  if noFrag.any (· = '?') then (noFrag.dropWhile (· ≠ '?')).tail else []

/-- `urllib.parse.unquote_plus` restricted as the redirect URL uses it: `+`
becomes a space and a valid `%xy` escape becomes the character of that byte
(invalid escapes pass through, as in CPython). -/
def unquotePlusAux : Nat → PyStr → PyStr
  | 0, _ => []
  | _ + 1, [] => []
  | fuel + 1, c :: t =>
      if c = '+' then ' ' :: unquotePlusAux fuel t
      else if c = '%' then
        if 2 ≤ t.length then
          match hexVal t.headI, hexVal t.tail.headI with
          | some a, some b => Char.ofNat (a * 16 + b) :: unquotePlusAux fuel t.tail.tail
          | _, _ => '%' :: unquotePlusAux fuel t
        else '%' :: unquotePlusAux fuel t
      else c :: unquotePlusAux fuel t

def unquote_plus (s : PyStr) : PyStr := unquotePlusAux (s.length + 1) s

/-- `urllib.parse.parse_qsl(qs)` with the default `keep_blank_values=False`:
split on `&`, skip empty fields, skip fields with no `=` or an empty value,
unquote names and values. -/
def parse_qsl (qs : PyStr) : List (PyStr × PyStr) :=
  (splitOnChar '&' qs).filterMap (fun nv =>
    if nv = [] then none
    else if nv.any (· = '=') then
      let value := (nv.dropWhile (· ≠ '=')).tail
      if value ≠ [] then
        some (unquote_plus (nv.takeWhile (· ≠ '=')), unquote_plus value)
      else none
    else none)

/-- Insertion into the `parse_qs` dict: append to an existing key, else add. -/
def qsInsert : List (PyStr × List PyStr) → PyStr → PyStr → List (PyStr × List PyStr)
  | [], k, v => [(k, [v])]
  | (k2, vs) :: rest, k, v =>
      if k2 = k then (k2, vs ++ [v]) :: rest else (k2, vs) :: qsInsert rest k v

/-- `urllib.parse.parse_qs(qs)`: group the `parse_qsl` pairs by key. -/
def parse_qs (qs : PyStr) : List (PyStr × List PyStr) :=
  (parse_qsl qs).foldl (fun acc p => qsInsert acc p.1 p.2) []

/-- Dict lookup for the `parse_qs` result. -/
def qsLookup (d : List (PyStr × List PyStr)) (k : PyStr) : Option (List PyStr) :=
  (d.find? (fun p => p.1 = k)).map (·.2)

/-- What one `RedirectHandler.do_GET` run leaves behind: the value written to
`captured_code` (if any), and the HTTP status and body sent back. -/
structure HandlerResult where
  captured : Option PyStr
  status : Nat
  body : PyStr
  deriving DecidableEq

/-- `RedirectHandler.do_GET` of `do_sso_login` in
`issue_brazilian_credentials.py` (the handler in `govbr_token.py` is
identical): parse the query string, and capture `params["code"][0]` iff the
`code` parameter is present.  Nothing else in the request — in particular no
`state` parameter — is consulted. -/
def do_GET (path : PyStr) : HandlerResult :=
  match qsLookup (parse_qs (urlparse_query path)) "code".toList with
  | some (v :: _) => ⟨some v, 200,
      ("<html><body><h1>Login successful!</h1>" ++
       "<p>You can close this tab and return to the terminal.</p>" ++
       "</body></html>").toList⟩
  | some [] => ⟨none, 400, "No code parameter found".toList⟩
  | none => ⟨none, 400, "No code parameter found".toList⟩

/-- `load_cached_tokens`: `file` is the cache file's text (`none` = the open
raises `FileNotFoundError`), `now` is `time.time()`.  Every `none` on the right
is either an explicit `return None` or an exception landing in the catch-all
`except` clause. -/
def load_cached_tokens (file : Option PyStr) (now : Int) : Option Json :=
  match file with
  | none => none
  | some text =>
      match jsonLoads text with
      | .error _ => none
      | .ok cache =>
          match pyGet cache "access_token".toList (.str []) with
          | .error _ => none
          | .ok access_token =>
              if pyTruthy access_token then
                match access_token with
                | .str tok =>
                    match decode_jwt_payload tok with
                    | .error _ => none
                    | .ok claims =>
                        match pyGet claims "exp".toList (.num 0) with
                        | .error _ => none
                        | .ok (.num e) => if now < e - 60 then some cache else none
                        | .ok (.bool b) =>
                            if now < (if b then 1 else 0) - 60 then some cache
                            else none
                        | .ok _ => none
                | _ => none
              else none

/-- Python whitespace as `str.strip()` removes it. -/
def isPySpace (c : Char) : Bool :=
  c = ' ' ∨ c = '\t' ∨ c = '\n' ∨ c = '\x0d' ∨ c = '\x0b' ∨ c = '\x0c'

/-- `str.strip()`. -/
def pyStrip (s : PyStr) : PyStr :=
  ((s.dropWhile isPySpace).reverse.dropWhile isPySpace).reverse

/-- `int(s)` for the strings the openssl dump contains: an optional-strip string
of decimal digits (a ValueError otherwise). -/
def pyInt (s : PyStr) : Except PyErr Nat :=
  if s ≠ [] ∧ s.all isDigitCh then .ok (foldDigits s)
  else .error ⟨.valueError, "invalid literal for int".toList⟩

/-- One line of the `openssl rsa -text` parsing loop, on the state
`(in_modulus, modulus_hex, exponent)`. -/
def dumpLineStep (st : Bool × PyStr × Nat) (line : PyStr) :
    Except PyErr (Bool × PyStr × Nat) :=
  if isSubstr "modulus:".toList (line.map Char.toLower) then
    .ok (true, st.2.1, st.2.2)
  else if isSubstr "publicexponent".toList
      ((line.map Char.toLower).filter (· ≠ ' ')) then
    if 1 < (splitOnChar '(' line).length then
      match (splitOnChar ':' (splitOnChar '(' line).headI).get? 1 with
      | none => .error ⟨.indexError, "list index out of range".toList⟩
      | some x =>
          match pyInt (pyStrip x) with
          | .ok v => .ok (false, st.2.1, v)
          | .error e => .error e
    else .ok (false, st.2.1, st.2.2)
  else if st.1 then
    if pyStrip line ≠ [] ∧
        (pyStrip line).all (fun c => "0123456789abcdef:".toList.contains c) then
      .ok (true, st.2.1 ++ (pyStrip line).filter (· ≠ ':'), st.2.2)
    else .ok (false, st.2.1, st.2.2)
  else .ok st

/-- The whole modulus/exponent extraction from the `openssl rsa -text` stdout. -/
def parseOpensslDump (stdout : PyStr) : Except PyErr (PyStr × Nat) :=
  ((splitOnChar '\n' stdout).foldlM dumpLineStep (false, [], 65537)).map
    (fun st => (st.2.1, st.2.2))

/-- `bytes.fromhex` on a string of hex digits (ValueError on odd length or a
non-hex character). -/
def fromHex : PyStr → Except PyErr PyBytes
  | [] => .ok []
  | [_] => .error ⟨.valueError, "non-hexadecimal number found in fromhex".toList⟩
  | a :: b :: t =>
      match hexVal a, hexVal b with
      | some x, some y => (fromHex t).map (fun r => (x * 16 + y) :: r)
      | _, _ => .error ⟨.valueError, "non-hexadecimal number found in fromhex".toList⟩

/-- Outcome of one `subprocess.run(..., check=True)` call: captured stdout (as
text and as bytes), or a `CalledProcessError`. -/
inductive SubprocResult where
  | ok (stdoutText : PyStr) (stdoutBytes : PyBytes)
  | fail (msg : PyStr)

/-- The oracle for the three openssl invocations of
`generate_rsa_key_and_proof_stdlib`. -/
structure StdlibEnv where
  genrsa : SubprocResult
  rsaText : SubprocResult
  dgst : SubprocResult

/-- The two `NamedTemporaryFile(delete=False)` files the function creates. -/
inductive TempFile where
  | keyFile
  | inputFile
  deriving DecidableEq, Repr

/-- `generate_rsa_key_and_proof_stdlib` of `issue_brazilian_credentials.py`
(`govbr_token.py` differs only in the payload claims): returns the function's
result — the proof JWT and JWK, or the exception that propagates — together
with the temporary files still existing on disk when the function exits.  The
two `os.unlink` calls sit on the straight-line path after the `openssl dgst`
run, with no `try/finally`, so any earlier exception leaves files behind. -/
def generate_rsa_key_and_proof_stdlib (envp : StdlibEnv)
    (certify_identifier client_id : PyStr) (nonce : Option Json) (now : Nat) :
    Except PyErr (PyStr × Json) × List TempFile :=
  match envp.genrsa with
  | .fail m => (.error ⟨.calledProcessError, m⟩, [.keyFile])
  | .ok _ _ =>
      match envp.rsaText with
      | .fail m => (.error ⟨.calledProcessError, m⟩, [.keyFile])
      | .ok stdout _ =>
          match parseOpensslDump stdout with
          | .error e => (.error e, [.keyFile])
          | .ok st =>
              match fromHex st.1 with
              | .error e => (.error e, [.keyFile])
              | .ok [] => (.error ⟨.indexError, "index out of range".toList⟩, [.keyFile])
              | .ok (b0 :: restBytes) =>
                  let modulus_bytes := if b0 = 0 then restBytes else b0 :: restBytes
                  let jwk : Json := .obj [("kty".toList, .str "RSA".toList),
                    ("n".toList, .str (b64url_bytes modulus_bytes)),
                    ("e".toList, .str (b64url_bytes (natToBEBytes st.2)))]
                  let signing_input := b64url_str (dumps (ibcHeader jwk)) ++
                    '.' :: b64url_str (dumps (ibcPayload certify_identifier client_id nonce now))
                  match envp.dgst with
                  | .fail m =>
                      (.error ⟨.calledProcessError, m⟩, [.keyFile, .inputFile])
                  | .ok _ signature =>
                      (.ok (signing_input ++ '.' :: b64url_bytes signature, jwk), [])

/-! ## Helpers about object keys and the decode roundtrip -/

/-- Key-presence test on a JSON object. -/
def objHasKey (j : Json) (k : PyStr) : Bool :=
  match j with
  | .obj fs => fs.any (fun p => p.1 = k)
  | _ => false

/-- `isinstance(v, dict)`. -/
def isDict : Json → Bool
  | .obj _ => true
  | _ => false

theorem splitOnChar_append_sep (sep : Char) (xs ys : PyStr)
    (h : ∀ x ∈ xs, x ≠ sep) :
    splitOnChar sep (xs ++ sep :: ys) = xs :: splitOnChar sep ys := by
  induction xs with
  | nil =>
      show splitOnChar sep (sep :: ys) = [] :: splitOnChar sep ys
      rw [splitOnChar, if_pos rfl]
  | cons c t ih =>
      have hc : c ≠ sep := h c (List.mem_cons_self c t)
      rw [List.cons_append, splitOnChar, if_neg hc,
        ih (fun x hx => h x (List.mem_cons_of_mem c hx))]

theorem utf8Encode_lt256 (s : PyStr) (h : ∀ c ∈ s, c.toNat < 128) :
    ∀ b ∈ utf8Encode s, b < 256 := by
  rw [utf8Encode_ascii s h]
  intro b hb
  obtain ⟨c, hc, rfl⟩ := List.mem_map.mp hb
  exact Nat.lt_of_lt_of_le (h c hc) (by norm_num)

theorem b64url_str_dumps_ne_dot (v : Json) : ∀ c ∈ b64url_str (dumps v), c ≠ '.' := by
  intro c hc
  exact b64urlNoPad_ne_dot _ (utf8Encode_lt256 _ (dumps_ascii v)) c hc

/-- `decode_jwt_payload` on `A.B.C` with dot-free `A` and `B` re-pads and
decodes `B`. -/
theorem decode_jwt_payload_parts (A B C : PyStr) (hA : ∀ c ∈ A, c ≠ '.')
    (hB : ∀ c ∈ B, c ≠ '.') :
    decode_jwt_payload (A ++ '.' :: (B ++ '.' :: C)) =
      match b64decode (B ++ List.replicate (4 - B.length % 4) '=') with
      | .error e => .error e
      | .ok bytes => jsonLoadsBytes bytes := by
  have h1 : splitOnChar '.' (A ++ '.' :: (B ++ '.' :: C)) =
      A :: B :: splitOnChar '.' C := by
    rw [splitOnChar_append_sep '.' A _ hA, splitOnChar_append_sep '.' B C hB]
  rw [decode_jwt_payload, h1]
  rfl

/-- The payload roundtrip: re-padding and decoding the middle part of a JWT
whose payload part encodes a flat object gives that object back. -/
theorem decode_jwt_payload_of_obj (fs : List (PyStr × Json))
    (hflat : ∀ p ∈ fs, flatVal p.2 = true) (A C : PyStr) (hA : ∀ c ∈ A, c ≠ '.') :
    decode_jwt_payload (A ++ '.' :: (b64url_str (dumps (.obj fs)) ++ '.' :: C)) =
      .ok (.obj fs) := by
  rw [decode_jwt_payload_parts A _ C hA (b64url_str_dumps_ne_dot (.obj fs))]
  have hbytes := utf8Encode_lt256 _ (dumps_ascii (.obj fs))
  rw [show b64url_str (dumps (.obj fs)) =
    b64urlNoPad (utf8Encode (dumps (.obj fs))) from rfl]
  rw [b64decode_b64urlNoPad_pad _ hbytes _ (by omega)]
  exact jsonLoadsBytes_dumpsObj fs hflat

/-! ## Branch lemmas for the credential request engine -/

theorem rct_round1_err (env : Nat → HttpResult) (cid client : PyStr)
    (now pubN pubE : Nat) (sig : PyBytes) (tmo : Option Int) (e : PyErr)
    (h : post_credential (env 0) = .error e) :
    requestCredentialTry env cid client now pubN pubE sig tmo =
      (.error e,
       [⟨tmo, none, (generate_rsa_key_and_proof cid client none now pubN pubE sig).1⟩]) := by
  simp only [requestCredentialTry, h]

theorem rct_not400 (env : Nat → HttpResult) (cid client : PyStr)
    (now pubN pubE : Nat) (sig : PyBytes) (tmo : Option Int) (body : Json)
    (status : Nat) (h : post_credential (env 0) = .ok (body, status))
    (hs : ¬ status = 400) :
    requestCredentialTry env cid client now pubN pubE sig tmo =
      (.ok (body, status),
       [⟨tmo, none, (generate_rsa_key_and_proof cid client none now pubN pubE sig).1⟩]) := by
  simp only [requestCredentialTry, h, if_neg hs]

theorem rct_400_inFalse (env : Nat → HttpResult) (cid client : PyStr)
    (now pubN pubE : Nat) (sig : PyBytes) (tmo : Option Int) (body : Json)
    (h : post_credential (env 0) = .ok (body, 400))
    (hin : pyIn "c_nonce".toList body = .ok false) :
    requestCredentialTry env cid client now pubN pubE sig tmo =
      (.ok (body, 400),
       [⟨tmo, none, (generate_rsa_key_and_proof cid client none now pubN pubE sig).1⟩]) := by
  simp only [requestCredentialTry, h, hin, reduceIte, Bool.false_eq_true, if_false]

theorem rct_400_inErr (env : Nat → HttpResult) (cid client : PyStr)
    (now pubN pubE : Nat) (sig : PyBytes) (tmo : Option Int) (body : Json)
    (e : PyErr) (h : post_credential (env 0) = .ok (body, 400))
    (hin : pyIn "c_nonce".toList body = .error e) :
    requestCredentialTry env cid client now pubN pubE sig tmo =
      (.error e,
       [⟨tmo, none, (generate_rsa_key_and_proof cid client none now pubN pubE sig).1⟩]) := by
  simp only [requestCredentialTry, h, hin, reduceIte]

theorem rct_400_subErr (env : Nat → HttpResult) (cid client : PyStr)
    (now pubN pubE : Nat) (sig : PyBytes) (tmo : Option Int) (body : Json)
    (e : PyErr) (h : post_credential (env 0) = .ok (body, 400))
    (hin : pyIn "c_nonce".toList body = .ok true)
    (hsub : pySubscript body "c_nonce".toList = .error e) :
    requestCredentialTry env cid client now pubN pubE sig tmo =
      (.error e,
       [⟨tmo, none, (generate_rsa_key_and_proof cid client none now pubN pubE sig).1⟩]) := by
  simp only [requestCredentialTry, h, hin, hsub, reduceIte, if_true]

theorem rct_400_retry (env : Nat → HttpResult) (cid client : PyStr)
    (now pubN pubE : Nat) (sig : PyBytes) (tmo : Option Int) (body : Json)
    (cn : Json) (h : post_credential (env 0) = .ok (body, 400))
    (hin : pyIn "c_nonce".toList body = .ok true)
    (hsub : pySubscript body "c_nonce".toList = .ok cn) :
    requestCredentialTry env cid client now pubN pubE sig tmo =
      (match post_credential (env 1) with
       | .error e => .error e
       | .ok r2 => .ok r2,
       [⟨tmo, none, (generate_rsa_key_and_proof cid client none now pubN pubE sig).1⟩,
        ⟨tmo, some cn,
         (generate_rsa_key_and_proof cid client (some cn) now pubN pubE sig).1⟩]) := by
  simp only [requestCredentialTry, h, hin, hsub, reduceIte, if_true]
  rcases post_credential (env 1) with e2 | r2 <;> rfl

theorem request_credential_of_ok (env : Nat → HttpResult) (cid client : PyStr)
    (now pubN pubE : Nat) (sig : PyBytes) (timeout : Int) (tmo0 : Option Int)
    (r : Json × Nat)
    (h : (requestCredentialTry env cid client now pubN pubE sig (some timeout)).1 = .ok r) :
    request_credential env cid client now pubN pubE sig timeout tmo0 =
      (r, tmo0, (requestCredentialTry env cid client now pubN pubE sig (some timeout)).2) := by
  simp only [request_credential, h]

theorem request_credential_of_err (env : Nat → HttpResult) (cid client : PyStr)
    (now pubN pubE : Nat) (sig : PyBytes) (timeout : Int) (tmo0 : Option Int)
    (e : PyErr)
    (h : (requestCredentialTry env cid client now pubN pubE sig (some timeout)).1 = .error e) :
    request_credential env cid client now pubN pubE sig timeout tmo0 =
      ((.obj [("error".toList, .str "timeout".toList),
              ("error_description".toList, .str e.msg)], 0), tmo0,
       (requestCredentialTry env cid client now pubN pubE sig (some timeout)).2) := by
  simp only [request_credential, h]

/-! ## The claims -/

theorem b64Char_unreserved : ∀ n < 64,
    (b64Char n).isAlphanum ∨ b64Char n = '-' ∨ b64Char n = '_' := by decide

/-- C3: every `(verifier, challenge)` pair from `generate_pkce` satisfies
`challenge = base64url_nopad(sha256(verifier))`, the verifier has at least 43
characters, and all its characters lie in the URL-safe unreserved alphabet. -/
theorem C3_pkce_challenge (seed : PyBytes) (hlen : seed.length = 32)
    (hb : ∀ b ∈ seed, b < 256) :
    (generate_pkce seed).2 =
      b64urlNoPad (sha256 ((generate_pkce seed).1.map Char.toNat)) ∧
    43 ≤ (generate_pkce seed).1.length ∧
    ∀ c ∈ (generate_pkce seed).1, c.isAlphanum ∨ c = '-' ∨ c = '_' := by
  refine ⟨rfl, ?_, ?_⟩
  · show 43 ≤ ((b64urlNoPad seed).take 43).length
    rw [List.length_take, length_b64urlNoPad, hlen]
    norm_num
  · intro c hc
    have hc2 : c ∈ b64urlNoPad seed := List.take_subset 43 _ hc
    obtain ⟨n, hn, rfl⟩ := mem_b64urlNoPad seed hb c hc2
    exact b64Char_unreserved n hn

theorem C3_pkce_challenge_witness :
    (generate_pkce (List.range 32)).2 =
      b64urlNoPad (sha256 ((generate_pkce (List.range 32)).1.map Char.toNat)) ∧
    43 ≤ (generate_pkce (List.range 32)).1.length ∧
    ∀ c ∈ (generate_pkce (List.range 32)).1, c.isAlphanum ∨ c = '-' ∨ c = '_' :=
  C3_pkce_challenge (List.range 32) (by decide) (by decide)

/-- C8: the redirect handler's outcome is a function of the `code` query
parameter alone — two callback requests with the same `code` lookup but any
`state` values (different or absent) capture the same authorization code and
send the same response. -/
theorem C8_state_not_verified (p1 p2 : PyStr)
    (h : qsLookup (parse_qs (urlparse_query p1)) "code".toList =
         qsLookup (parse_qs (urlparse_query p2)) "code".toList) :
    do_GET p1 = do_GET p2 := by
  simp only [do_GET, h]

theorem C8_state_not_verified_witness :
    do_GET "/callback?code=abc123&state=expected".toList =
      do_GET "/callback?code=abc123&state=tampered".toList :=
  C8_state_not_verified _ _ (by decide)

/-- The `openssl rsa -text` stdout of the C4 run. -/
def rsaTextDump : PyStr :=
  ("modulus:\n    00:aa:bb\npublicExponent: 65537 (0x10001)\n").toList

/-- An oracle run where key generation and the key dump succeed but the
`openssl dgst` signing call fails. -/
def envC4 : StdlibEnv := ⟨.ok [] [], .ok rsaTextDump [], .fail "dgst failed".toList⟩

/-- C4: refuted — when the `openssl dgst` signing subprocess fails, the
function raises `CalledProcessError` with both the temporary key file and the
temporary signing-input file still on disk: the `os.unlink` calls sit after the
signing step with no `try/finally`. -/
theorem C4_tempfile_leak :
    (generate_rsa_key_and_proof_stdlib envC4 "aud".toList "cid".toList none 0).1 =
      .error ⟨.calledProcessError, "dgst failed".toList⟩ ∧
    (generate_rsa_key_and_proof_stdlib envC4 "aud".toList "cid".toList none 0).2 =
      [.keyFile, .inputFile] := by decide

theorem nonceFields_keys (nonce : Option Json) (k : PyStr)
    (hk : ¬ ("nonce".toList = k)) :
    ((match nonce with
      | some v => if pyTruthy v then [("nonce".toList, v)] else []
      | none => ([] : List (PyStr × Json))).any (fun p => p.1 = k)) = false := by
  rcases nonce with _ | v
  · rfl
  · by_cases hv : pyTruthy v
    · simp only [hv, reduceIte, List.any_cons, List.any_nil, Bool.or_false,
        decide_eq_false_iff_not]
      simpa using hk
    · simp [hv]

theorem C2_iss_sub_presence (cid client : PyStr) (nonce c_nonce : Option Json)
    (now : Nat) :
    (objHasKey (ibcPayload cid client nonce now) "iss".toList = true ↔ client ≠ []) ∧
    objHasKey (ibcPayload cid client nonce now) "sub".toList = false ∧
    objHasKey (gtPayload cid client now) "iss".toList = true ∧
    objHasKey (gtPayload cid client now) "sub".toList = false ∧
    objHasKey (gtlPayload cid client c_nonce now) "iss".toList = true ∧
    objHasKey (gtlPayload cid client c_nonce now) "sub".toList = true := by
  have hn1 := nonceFields_keys nonce "iss".toList (by decide)
  have hn2 := nonceFields_keys nonce "sub".toList (by decide)
  refine ⟨?_, ?_, rfl, rfl, rfl, rfl⟩
  · by_cases hc : client = []
    · subst hc
      simp only [objHasKey, ibcPayload, List.any_append, hn1, ne_eq,
        not_true_eq_false, iff_false, List.any_cons, List.any_nil, reduceIte,
        Bool.or_false]
      simp
    · simp only [objHasKey, ibcPayload, List.any_append, hn1, ne_eq,
        Bool.or_false]
      rw [if_pos (show ¬ (client = []) from hc)]
      simp only [List.any_cons, List.any_nil]
      simp +decide [hc]
  · by_cases hc : client = []
    · subst hc
      simp only [objHasKey, ibcPayload, List.any_append, hn2, List.any_cons,
        List.any_nil, reduceIte, Bool.or_false]
      simp
    · simp only [objHasKey, ibcPayload, List.any_append, hn2, ne_eq,
        Bool.or_false]
      rw [if_pos (show ¬ (client = []) from hc)]
      simp only [List.any_cons, List.any_nil]
      simp

/-- C2 counterexample: a non-empty client identifier gives no `sub` in
`issue_brazilian_credentials.py`; an empty identifier still gives `iss` in
`govbr_token.py` and still gives `sub` in `govbr_token_local.py`. -/
theorem C2_cex :
    ("x".toList ≠ ([] : PyStr)) ∧
    objHasKey (ibcPayload "aud".toList "x".toList none 0) "sub".toList = false ∧
    objHasKey (gtPayload "aud".toList [] 0) "iss".toList = true ∧
    objHasKey (gtlPayload "aud".toList [] none 0) "sub".toList = true := by decide
/-- The optional-`iss` field list only ever carries the key `"iss"`. -/
theorem issFields_keys (client : PyStr) (k : PyStr) (hk : ¬ ("iss".toList = k)) :
    ((if client ≠ [] then [("iss".toList, Json.str client)] else []).any
      (fun p => p.1 = k)) = false := by
  by_cases hc : client = []
  · rw [if_neg (by simpa using hc)]
    rfl
  · rw [if_pos hc]
    simp only [List.any_cons, List.any_nil, Bool.or_false, decide_eq_false_iff_not]
    simpa using hk

/-- Flatness of the aud/iat/exp/iss part of the payload. -/
theorem ibcBaseFlat (cid client : PyStr) (now : Nat) :
    ∀ p ∈ ([("aud".toList, Json.str cid),
        ("iat".toList, Json.num now),
        ("exp".toList, Json.num (now + 300))] ++
      (if client ≠ [] then [("iss".toList, Json.str client)] else [])),
      flatVal p.2 = true := by
  intro p hp
  rcases List.mem_append.mp hp with hp3 | hp4
  · rcases List.mem_cons.mp hp3 with rfl | hp5
    · rfl
    rcases List.mem_cons.mp hp5 with rfl | hp6
    · rfl
    rcases List.mem_cons.mp hp6 with rfl | hp7
    · rfl
    · exact absurd hp7 (List.not_mem_nil p)
  · by_cases hc : client = []
    · rw [if_neg (by simpa using hc)] at hp4
      exact absurd hp4 (List.not_mem_nil p)
    · rw [if_pos hc] at hp4
      rcases List.mem_cons.mp hp4 with rfl | hp5
      · rfl
      · exact absurd hp5 (List.not_mem_nil p)

/-- C6: decoding the payload of a proof JWT built by
`generate_rsa_key_and_proof` gives back exactly the claims that were set — the
`aud`, `iat`, `exp = iat + 300` triple, `iss` only for a non-empty client
identifier, and `nonce` exactly when a (non-empty string) challenge was
supplied, with no extra claims. -/
theorem C6_jwt_roundtrip (cid client : PyStr) (nonce : Option Json)
    (now pubN pubE : Nat) (sig : PyBytes)
    (hn : nonce = none ∨ ∃ s, nonce = some (.str s) ∧ s ≠ []) :
    decode_jwt_payload (generate_rsa_key_and_proof cid client nonce now pubN pubE sig).1 =
      .ok (ibcPayload cid client nonce now) ∧
    (objHasKey (ibcPayload cid client nonce now) "nonce".toList = true ↔ nonce ≠ none) := by
  have hshape : (generate_rsa_key_and_proof cid client nonce now pubN pubE sig).1 =
      b64url_str (dumps (ibcHeader (ibcJwk pubN pubE))) ++ '.' ::
        (b64url_str (dumps (ibcPayload cid client nonce now)) ++ '.' ::
         b64url_bytes sig) := by
    show (b64url_str (dumps (ibcHeader (ibcJwk pubN pubE))) ++
        ('.' :: b64url_str (dumps (ibcPayload cid client nonce now)))) ++
        '.' :: b64url_bytes sig = _
    simp [List.append_assoc]
  rcases hn with rfl | ⟨s, rfl, hs⟩
  · have hfs : ibcPayload cid client none now =
        Json.obj (([("aud".toList, Json.str cid),
          ("iat".toList, Json.num now),
          ("exp".toList, Json.num (now + 300))] ++
        (if client ≠ [] then [("iss".toList, Json.str client)] else [])) ++ []) := rfl
    constructor
    · rw [hshape, hfs]
      refine decode_jwt_payload_of_obj _ ?_ _ _
        (b64url_str_dumps_ne_dot (ibcHeader (ibcJwk pubN pubE)))
      intro p hp
      rw [List.append_nil] at hp
      exact ibcBaseFlat cid client now p hp
    · refine iff_of_false ?_ (by simp)
      rw [hfs]
      simp only [objHasKey, List.any_append,
        issFields_keys client "nonce".toList (by decide), Bool.or_false]
      simp
  · have htr : pyTruthy (Json.str s) = true := by simp [pyTruthy, hs]
    have hfs : ibcPayload cid client (some (Json.str s)) now =
        Json.obj (([("aud".toList, Json.str cid),
          ("iat".toList, Json.num now),
          ("exp".toList, Json.num (now + 300))] ++
        (if client ≠ [] then [("iss".toList, Json.str client)] else [])) ++
        [("nonce".toList, Json.str s)]) := by
      show Json.obj (([("aud".toList, Json.str cid),
          ("iat".toList, Json.num now),
          ("exp".toList, Json.num (now + 300))] ++
        (if client ≠ [] then [("iss".toList, Json.str client)] else [])) ++
        (if pyTruthy (Json.str s) then [("nonce".toList, Json.str s)] else [])) = _
      rw [if_pos htr]
    constructor
    · rw [hshape, hfs]
      refine decode_jwt_payload_of_obj _ ?_ _ _
        (b64url_str_dumps_ne_dot (ibcHeader (ibcJwk pubN pubE)))
      intro p hp
      rcases List.mem_append.mp hp with hp1 | hp2
      · exact ibcBaseFlat cid client now p hp1
      · rcases List.mem_cons.mp hp2 with rfl | hp5
        · rfl
        · exact absurd hp5 (List.not_mem_nil p)
    · refine iff_of_true ?_ (by simp)
      rw [hfs]
      simp only [objHasKey, List.any_append, List.any_cons, List.any_nil]
      simp

theorem C6_jwt_roundtrip_witness :
    decode_jwt_payload
        (generate_rsa_key_and_proof "https://aud.example".toList "client-1".toList
          none 1700000000 65537 3 [1, 2, 3]).1 =
      .ok (ibcPayload "https://aud.example".toList "client-1".toList none 1700000000) ∧
    (objHasKey (ibcPayload "https://aud.example".toList "client-1".toList none 1700000000)
        "nonce".toList = true ↔ (none : Option Json) ≠ none) :=
  C6_jwt_roundtrip "https://aud.example".toList "client-1".toList none
    1700000000 65537 3 [1, 2, 3] (Or.inl rfl)
/-- Every recorded call of the try block carries the installed timeout, and the
trace has one or two entries. -/
theorem rct_trace (env : Nat → HttpResult) (cid client : PyStr)
    (now pubN pubE : Nat) (sig : PyBytes) (tmo : Option Int) :
    (∀ r ∈ (requestCredentialTry env cid client now pubN pubE sig tmo).2,
      r.timeoutAtCall = tmo) ∧
    (requestCredentialTry env cid client now pubN pubE sig tmo).2.length ≤ 2 := by
  rcases hp : post_credential (env 0) with e | ⟨body, status⟩
  · rw [rct_round1_err env cid client now pubN pubE sig tmo e hp]
    exact ⟨fun r hr => by rcases List.mem_singleton.mp hr with rfl; rfl, by simp⟩
  · by_cases hs : status = 400
    · subst hs
      rcases hin : pyIn "c_nonce".toList body with e | b
      · rw [rct_400_inErr env cid client now pubN pubE sig tmo body e hp hin]
        exact ⟨fun r hr => by rcases List.mem_singleton.mp hr with rfl; rfl, by simp⟩
      · rcases b with _ | _
        · rw [rct_400_inFalse env cid client now pubN pubE sig tmo body hp hin]
          exact ⟨fun r hr => by rcases List.mem_singleton.mp hr with rfl; rfl, by simp⟩
        · rcases hsub : pySubscript body "c_nonce".toList with e | cn
          · rw [rct_400_subErr env cid client now pubN pubE sig tmo body e hp hin hsub]
            exact ⟨fun r hr => by rcases List.mem_singleton.mp hr with rfl; rfl, by simp⟩
          · rw [rct_400_retry env cid client now pubN pubE sig tmo body cn hp hin hsub]
            refine ⟨fun r hr => ?_, by simp⟩
            rcases List.mem_cons.mp hr with rfl | hr2
            · rfl
            · rcases List.mem_singleton.mp hr2 with rfl; rfl
    · rw [rct_not400 env cid client now pubN pubE sig tmo body status hp hs]
      exact ⟨fun r hr => by rcases List.mem_singleton.mp hr with rfl; rfl, by simp⟩

/-- The trace of the whole engine call is the try block trace, and the restored
timeout is the saved one, in both the normal and the exceptional case. -/
theorem request_credential_frame (env : Nat → HttpResult) (cid client : PyStr)
    (now pubN pubE : Nat) (sig : PyBytes) (timeout : Int) (tmo0 : Option Int) :
    (request_credential env cid client now pubN pubE sig timeout tmo0).2.1 = tmo0 ∧
    (request_credential env cid client now pubN pubE sig timeout tmo0).2.2 =
      (requestCredentialTry env cid client now pubN pubE sig (some timeout)).2 := by
  rcases htr : (requestCredentialTry env cid client now pubN pubE sig (some timeout)).1
    with e | r
  · rw [request_credential_of_err env cid client now pubN pubE sig timeout tmo0 e htr]
    exact ⟨rfl, rfl⟩
  · rw [request_credential_of_ok env cid client now pubN pubE sig timeout tmo0 r htr]
    exact ⟨rfl, rfl⟩

/-- C7: `request_credential` installs the configured timeout as the socket
default before the Round-1 call, every credential-endpoint call it makes runs
under that timeout, and the previous global default is restored on every exit
path. -/
theorem C7_timeout_bracket (env : Nat → HttpResult) (cid client : PyStr)
    (now pubN pubE : Nat) (sig : PyBytes) (timeout : Int) (tmo0 : Option Int) :
    (request_credential env cid client now pubN pubE sig timeout tmo0).2.1 = tmo0 ∧
    ∀ r ∈ (request_credential env cid client now pubN pubE sig timeout tmo0).2.2,
      r.timeoutAtCall = some timeout := by
  obtain ⟨h1, h2⟩ := request_credential_frame env cid client now pubN pubE sig timeout tmo0
  refine ⟨h1, fun r hr => ?_⟩
  rw [h2] at hr
  exact (rct_trace env cid client now pubN pubE sig (some timeout)).1 r hr
/-- C1 (amended): the engine makes at most two calls; on a 400 that supports
the containment test and carries `c_nonce` it retries exactly once with that
nonce and the Round-2 result is final whatever it is; on any other status, or a
400 whose body supports the test but lacks `c_nonce`, the Round-1 result is
returned unchanged; a 400 whose body supports neither `in` nor `[]` (a
non-container JSON value) raises `TypeError` inside the `try` block and is
returned as the synthetic `({"error": "timeout", ...}, 0)` result instead of
the Round-1 result. -/
theorem C1_retry_policy (env : Nat → HttpResult) (cid client : PyStr)
    (now pubN pubE : Nat) (sig : PyBytes) (timeout : Int) (tmo0 : Option Int) :
    (request_credential env cid client now pubN pubE sig timeout tmo0).2.2.length ≤ 2 ∧
    ∀ body status, post_credential (env 0) = .ok (body, status) →
      ((status = 400 → ∀ cn, pyIn "c_nonce".toList body = .ok true →
          pySubscript body "c_nonce".toList = .ok cn →
          (request_credential env cid client now pubN pubE sig timeout tmo0).2.2.map
            CallRec.nonceArg = [none, some cn] ∧
          ∀ r2, post_credential (env 1) = .ok r2 →
            (request_credential env cid client now pubN pubE sig timeout tmo0).1 = r2) ∧
       ((¬ status = 400 ∨ pyIn "c_nonce".toList body = .ok false) →
          (request_credential env cid client now pubN pubE sig timeout tmo0).1 =
            (body, status) ∧
          (request_credential env cid client now pubN pubE sig timeout tmo0).2.2.length
            = 1) ∧
       (∀ e, status = 400 → pyIn "c_nonce".toList body = .error e →
          (request_credential env cid client now pubN pubE sig timeout tmo0).1 =
            (.obj [("error".toList, .str "timeout".toList),
                   ("error_description".toList, .str e.msg)], 0))) := by
  obtain ⟨hfr1, hfr2⟩ := request_credential_frame env cid client now pubN pubE sig
    timeout tmo0
  constructor
  · rw [hfr2]
    exact (rct_trace env cid client now pubN pubE sig (some timeout)).2
  · intro body status hp
    refine ⟨?_, ?_, ?_⟩
    · intro hs cn hin hsub
      subst hs
      have hrw := rct_400_retry env cid client now pubN pubE sig (some timeout)
        body cn hp hin hsub
      constructor
      · rw [hfr2, hrw]
        rfl
      · intro r2 hp2
        have h1 : (requestCredentialTry env cid client now pubN pubE sig
            (some timeout)).1 = .ok r2 := by
          rw [hrw, hp2]
        rw [request_credential_of_ok env cid client now pubN pubE sig timeout tmo0
          r2 h1]
    · intro hor
      have hstep : ∀ hrw2 : requestCredentialTry env cid client now pubN pubE sig
            (some timeout) =
          (.ok (body, status),
           [⟨some timeout, none,
             (generate_rsa_key_and_proof cid client none now pubN pubE sig).1⟩]),
          (request_credential env cid client now pubN pubE sig timeout tmo0).1 =
            (body, status) ∧
          (request_credential env cid client now pubN pubE sig timeout tmo0).2.2.length
            = 1 := by
        intro hrw2
        have h1 : (requestCredentialTry env cid client now pubN pubE sig
            (some timeout)).1 = .ok (body, status) := by rw [hrw2]
        constructor
        · rw [request_credential_of_ok env cid client now pubN pubE sig timeout tmo0
            (body, status) h1]
        · rw [hfr2, hrw2]
          rfl
      rcases hor with hs | hin
      · exact hstep (rct_not400 env cid client now pubN pubE sig (some timeout)
          body status hp hs)
      · by_cases hs : status = 400
        · subst hs
          exact hstep (rct_400_inFalse env cid client now pubN pubE sig (some timeout)
            body hp hin)
        · exact hstep (rct_not400 env cid client now pubN pubE sig (some timeout)
            body status hp hs)
    · intro e hs hin
      subst hs
      have hrw := rct_400_inErr env cid client now pubN pubE sig (some timeout)
        body e hp hin
      have h1 : (requestCredentialTry env cid client now pubN pubE sig
          (some timeout)).1 = .error e := by rw [hrw]
      rw [request_credential_of_err env cid client now pubN pubE sig timeout tmo0
        e h1]

/-- The network behavior of the C1 counterexample: a Round-1 HTTP 400 whose
JSON body is the bare number `5`. -/
def envC1 : Nat → HttpResult :=
  fun _ => .httpError 400 "Bad Request".toList "5".toList

/-- C1 counterexample: the Round-1 response is `(5, 400)` — a 400 without a
`c_nonce` field — yet the engine does not return it unchanged: the containment
test on the number raises `TypeError` and the caller sees the synthetic
`({"error": "timeout", ...}, 0)` result. -/
theorem C1_cex :
    post_credential (envC1 0) = .ok (.num 5, 400) ∧
    (request_credential envC1 "aud".toList "cid".toList 0 0 0 [] 30 none).1 =
      (.obj [("error".toList, .str "timeout".toList),
             ("error_description".toList,
              .str "argument of type is not iterable".toList)], 0) := by decide
/-- C5 (amended): a transport-level exception on the Round-1 call is returned
as the synthetic `({"error": "timeout", "error_description": str(e)}, 0)`
result without any retry.  (The status-0 outcome is not reserved for transport
failures: see the counterexample, where a protocol-level 400 is converted to
the same synthetic result.) -/
theorem C5_transport_synthetic (env : Nat → HttpResult) (cid client : PyStr)
    (now pubN pubE : Nat) (sig : PyBytes) (timeout : Int) (tmo0 : Option Int)
    (msg : PyStr) (h : env 0 = .exn msg) :
    (request_credential env cid client now pubN pubE sig timeout tmo0).1 =
      (.obj [("error".toList, .str "timeout".toList),
             ("error_description".toList, .str msg)], 0) ∧
    (request_credential env cid client now pubN pubE sig timeout tmo0).2.2.length
      = 1 := by
  have hp : post_credential (env 0) = .error ⟨.urlError, msg⟩ := by
    rw [h]
    rfl
  have hrw := rct_round1_err env cid client now pubN pubE sig (some timeout)
    ⟨.urlError, msg⟩ hp
  have h1 : (requestCredentialTry env cid client now pubN pubE sig
      (some timeout)).1 = .error ⟨.urlError, msg⟩ := by rw [hrw]
  constructor
  · rw [request_credential_of_err env cid client now pubN pubE sig timeout tmo0
      ⟨.urlError, msg⟩ h1]
  · rw [(request_credential_frame env cid client now pubN pubE sig timeout tmo0).2,
      hrw]
    rfl

theorem C5_transport_synthetic_witness :
    (request_credential (fun _ => HttpResult.exn "timed out".toList) "aud".toList
        [] 0 0 0 [] 30 none).1 =
      (.obj [("error".toList, .str "timeout".toList),
             ("error_description".toList, .str "timed out".toList)], 0) ∧
    (request_credential (fun _ => HttpResult.exn "timed out".toList) "aud".toList
        [] 0 0 0 [] 30 none).2.2.length = 1 :=
  C5_transport_synthetic (fun _ => HttpResult.exn "timed out".toList) "aud".toList
    [] 0 0 0 [] 30 none "timed out".toList rfl

/-- The network behavior of the C5 counterexample: a Round-1 HTTP 400 whose
JSON body is the list `["c_nonce"]`. -/
def envC5 : Nat → HttpResult :=
  fun _ => .httpError 400 "Bad Request".toList "[\x22c_nonce\x22]".toList

/-- C5 counterexample: a protocol-level 400 response is not always surfaced
with its real status code — a 400 whose body is the JSON list `["c_nonce"]`
passes the containment test, the `["c_nonce"]` subscript raises `TypeError`,
and the caller sees status `0` with the `error="timeout"` marker, exactly the
shape reserved for transport failures. -/
theorem C5_cex :
    post_credential (envC5 0) = .ok (.arr [.str "c_nonce".toList], 400) ∧
    (request_credential envC5 "aud".toList [] 0 0 0 [] 30 none).1 =
      (.obj [("error".toList, .str "timeout".toList),
             ("error_description".toList, .str "indices must be str".toList)], 0) := by
  decide
/-- C9 (amended): the engine is total.  Every `HTTPError` outcome — JSON body,
non-JSON body or empty body — is converted by `_post_credential` into an `ok`
pair carrying the error's HTTP code; every exception escaping the try block is
converted by `request_credential` into a result with status `0` whose first
component is a dictionary; and a normal try-block result is returned as is.
The returned value is the parsed JSON response, which need not be a dictionary
(see the counterexample). -/
theorem C9_engine_total (env : Nat → HttpResult) (cid client : PyStr)
    (now pubN pubE : Nat) (sig : PyBytes) (timeout : Int) (tmo0 : Option Int) :
    (∀ code reason raw, ∃ v, post_credential (.httpError code reason raw) =
      .ok (v, code)) ∧
    (∀ e, (requestCredentialTry env cid client now pubN pubE sig
        (some timeout)).1 = .error e →
      (request_credential env cid client now pubN pubE sig timeout tmo0).1.2 = 0 ∧
      isDict (request_credential env cid client now pubN pubE sig timeout tmo0).1.1
        = true) ∧
    (∀ r, (requestCredentialTry env cid client now pubN pubE sig
        (some timeout)).1 = .ok r →
      (request_credential env cid client now pubN pubE sig timeout tmo0).1 = r) := by
  refine ⟨?_, ?_, ?_⟩
  · intro code reason raw
    by_cases hraw : raw = []
    · subst hraw
      exact ⟨errObj code reason [], by simp [post_credential]⟩
    · rcases hj : jsonLoads raw with e | j
      · exact ⟨errObj code reason raw, by simp [post_credential, hraw, hj]⟩
      · exact ⟨j, by simp [post_credential, hraw, hj]⟩
  · intro e he
    rw [request_credential_of_err env cid client now pubN pubE sig timeout tmo0 e he]
    exact ⟨rfl, rfl⟩
  · intro r hr
    rw [request_credential_of_ok env cid client now pubN pubE sig timeout tmo0 r hr]

/-- The network behavior of the C9 counterexample: a 200 whose JSON body is the
empty list. -/
def envC9 : Nat → HttpResult :=
  fun _ => .success (utf8Encode "[]".toList) 200

/-- C9 counterexample: on a 200 whose body parses to the JSON list `[]`, the
engine returns `([], 200)` — the first component of the returned pair is not a
dictionary. -/
theorem C9_cex :
    (request_credential envC9 "aud".toList [] 0 0 0 [] 30 none).1 = (.arr [], 200) ∧
    isDict (.arr []) = false := by decide
/-- C10: the cache reader hands back the cached token set only when the file
exists and parses, holds a non-empty string `access_token` whose JWT payload
decodes, and `time.time()` is strictly below the `exp` claim minus the
60-second margin; it returns `None` (and, in the embedding, is total) in every
other case. -/
theorem C10_cache_only_fresh (file : Option PyStr) (now : Int) (cache : Json)
    (hnow : 0 ≤ now) (h : load_cached_tokens file now = some cache) :
    ∃ text, file = some text ∧ jsonLoads text = .ok cache ∧
      ∃ tok, pyGet cache "access_token".toList (.str []) = .ok (.str tok) ∧
        tok ≠ [] ∧
        ∃ claims, decode_jwt_payload tok = .ok claims ∧
          ∃ e, pyGet claims "exp".toList (.num 0) = .ok (.num e) ∧ now < e - 60 := by
  rcases file with _ | text
  · exact absurd h (by simp [load_cached_tokens])
  refine ⟨text, rfl, ?_⟩
  simp only [load_cached_tokens] at h
  rcases hj : jsonLoads text with e | c
  · simp only [hj] at h
    exact absurd h (by simp)
  simp only [hj] at h
  rcases hg : pyGet c "access_token".toList (.str []) with e | at2
  · simp only [hg] at h
    exact absurd h (by simp)
  simp only [hg] at h
  by_cases htr : pyTruthy at2 = true
  swap
  · rw [if_neg htr] at h
    exact absurd h (by simp)
  rw [if_pos htr] at h
  rcases at2 with _ | b2 | n2 | tok | es2 | fs2
  · simp at h
  · simp at h
  · simp at h
  · simp only [] at h
    rcases hd : decode_jwt_payload tok with e | claims
    · simp only [hd] at h
      exact absurd h (by simp)
    simp only [hd] at h
    rcases he : pyGet claims "exp".toList (.num 0) with e | expv
    · simp only [he] at h
      exact absurd h (by simp)
    simp only [he] at h
    rcases expv with _ | b | ev | _ | _ | _
    · simp at h
    · simp only [] at h
      split at h
      next =>
        rw [if_neg (by omega)] at h
        exact absurd h (by simp)
      next =>
        rw [if_neg (by omega)] at h
        exact absurd h (by simp)
    · simp only [] at h
      split at h
      next hlt =>
        obtain rfl : c = cache := Option.some.inj h
        exact ⟨rfl, tok, hg, by simpa [pyTruthy] using htr, claims, hd, ev, he, hlt⟩
      next hlt2 =>
        simp at h
    · simp at h
    · simp at h
    · simp at h
  · simp at h
  · simp at h

/-- A well-formed cached access token: header `"h"`, payload `{"exp": 1000}`,
signature `"s"`. -/
def cacheTok : PyStr :=
  "h".toList ++ '.' ::
    (b64urlNoPad (utf8Encode (dumps (.obj [("exp".toList, .num 1000)]))) ++
     '.' :: "s".toList)

/-- The cache file text holding that token. -/
def cacheText : PyStr := dumps (.obj [("access_token".toList, .str cacheTok)])

/-- The parsed cache object. -/
def cacheObj : Json := .obj [("access_token".toList, .str cacheTok)]

theorem C10_cache_only_fresh_witness :
    ∃ text, (some cacheText : Option PyStr) = some text ∧
      jsonLoads text = .ok cacheObj ∧
      ∃ tok, pyGet cacheObj "access_token".toList (.str []) = .ok (.str tok) ∧
        tok ≠ [] ∧
        ∃ claims, decode_jwt_payload tok = .ok claims ∧
          ∃ e, pyGet claims "exp".toList (.num 0) = .ok (.num e) ∧
            (0 : Int) < e - 60 :=
  C10_cache_only_fresh (some cacheText) 0 cacheObj (by decide) (by decide)
